import Mathlib

/-!
Train ticket manager: a shallow embedding and its verified properties.

The program keeps a `vector<TrainTicket>` in memory and offers a console menu to
add a ticket, list the tickets, average the prices, find the cheapest ticket to
a destination and sort the tickets by departure time.

Conventions of the embedding:

* a `std::string` is a `List Char`, one list element per `char`;
* a `double` is a rational number: the comparisons of the program are exact on finite
  values, and the result of an addition or a division is rounded by a function that
  is a parameter of the operation that computes;
* `std::cin` is an explicit state: the unread characters together with the
  `eofbit` and `failbit` flags (`badbit` is never raised, there are no device errors);
* of the text written to `std::cout` only the part that tells the outcome of a query
  is kept, as the result of the operation: which message, which records, which number;
* a loop is run with a bound on the number of iterations (fuel);
* the library routines whose result depends on the implementation, the numeric
  conversions behind `cin >> double` and `cin >> int` and `std::sort`, are parameters
  of the functions that call them; `std::sort` is used through its documented contract,
  and where the order of equivalent elements matters, through the routine of the GNU
  C++ library, which is embedded step by step.
-/

namespace TrainTickets

/-! ## Strings -/

/-- A `std::string`: the sequence of its `char` elements. -/
abbrev CppString := List Char

/-- The white-space characters of the "C" locale (`isspace`). -/
def isSpace (c : Char) : Bool :=
  c == ' ' || c == '\t' || c == '\n' || c == '\x0b' || c == '\x0c' || c == '\r'

/-- Decimal digit test (`isdigit`). -/
def isDigit (c : Char) : Bool :=
  48 ≤ c.toNat && c.toNat ≤ 57

/-- Value of the decimal numeral formed by a run of digits. -/
def digitsValue (ds : List Char) : Nat :=
  ds.foldl (fun acc d => 10 * acc + (d.toNat - 48)) 0

/-- The library routine `std::stoi(str)` with base 10: leading white space is skipped,
an optional sign is read, then the longest run of decimal digits; whatever follows
is ignored.  `none` stands for a thrown exception: `invalid_argument` when there is
no digit, `out_of_range` when the value does not fit a 32-bit `int`. -/
def stoi (str : CppString) : Option Int :=
  let s1 := str.dropWhile isSpace
  let signed : Bool × CppString :=
    match s1 with
    | '-' :: r => (true, r)
    | '+' :: r => (false, r)
    | _ => (false, s1)
  let ds := signed.2.takeWhile isDigit
  if ds.isEmpty then none
  else
    let v : Int := if signed.1 then -(digitsValue ds : Int) else (digitsValue ds : Int)
    if v < -2147483648 ∨ 2147483647 < v then none else some v

/-- The call `str.substr(pos, len)` for `pos ≤ str.length()`. -/
def substr (str : CppString) (pos len : Nat) : CppString :=
  (str.drop pos).take len

/-- Three-way comparison `a.compare(b)` of two strings: the first differing `char`
decides, otherwise the shorter string is smaller. -/
def compare : CppString → CppString → Ordering
  | [], [] => Ordering.eq
  | [], _ :: _ => Ordering.lt
  | _ :: _, [] => Ordering.gt
  | a :: as, b :: bs =>
    if a.toNat < b.toNat then Ordering.lt
    else if b.toNat < a.toNat then Ordering.gt
    else compare as bs

/-- The string comparison `a > b`. -/
def strGt (a b : CppString) : Bool := decide (compare a b = Ordering.gt)

/-- The string comparison `a >= b`. -/
def strGe (a b : CppString) : Bool := decide (compare a b ≠ Ordering.lt)

/-! ## The ticket record and the time validator -/

/-- The record `struct TrainTicket`. -/
structure TrainTicket where
  trainNumber : CppString
  destination : CppString
  departureTime : CppString
  travelTime : CppString
  price : ℚ
  deriving DecidableEq

/-- The member `TrainTicket::operator<`: `a < b` when `a.departureTime > b.departureTime`. -/
def TrainTicket.lt (a other : TrainTicket) : Bool :=
  strGt a.departureTime other.departureTime

/-- The function `isValidTimeFormat`.  The test `time[2] != ':'` is the right operand of
`||` and is reached only for a string of length 5.  The two `stoi` calls sit in a `try`
block whose handler returns `false`, so a failed conversion (`none`) gives `false`. -/
def isValidTimeFormat (time : CppString) : Bool :=
  if time.length ≠ 5 then false
  else if time.get? 2 ≠ some ':' then false
  else
    match stoi (substr time 0 2) with
    | none => false
    | some hours =>
      match stoi (substr time 3 2) with
      | none => false
      | some minutes => (decide (0 ≤ hours) && decide (hours < 24)) &&
          (decide (0 ≤ minutes) && decide (minutes < 60))

/-! ## Standard input -/

/-- The state of `std::cin`: the characters not yet read and two of the state flags. -/
structure IStream where
  buf : List Char
  eofbit : Bool
  failbit : Bool
  deriving DecidableEq

/-- The call `cin.good()`: no flag is set. -/
def IStream.good (cin : IStream) : Bool := !cin.eofbit && !cin.failbit

/-- The call `cin.fail()`. -/
def IStream.fail (cin : IStream) : Bool := cin.failbit

/-- The call `cin.clear()`. -/
def IStream.clear (cin : IStream) : IStream := { cin with eofbit := false, failbit := false }

/-- Construction of `istream::sentry`, the prologue of every input operation.  A stream
that is not `good()` gets `failbit` and the operation is abandoned.  A formatted
operation (`noskipws = false`) first discards white space; reaching the end of input
while doing so raises `eofbit` and `failbit`.  The boolean tells whether the
operation goes on. -/
def sentry (cin : IStream) (noskipws : Bool) : IStream × Bool :=
  if !cin.good then ({ cin with failbit := true }, false)
  else if noskipws then (cin, true)
  else
    let rest := cin.buf.dropWhile isSpace
    if rest.isEmpty then ({ buf := [], eofbit := true, failbit := true }, false)
    else ({ cin with buf := rest }, true)

/-- The operation `cin >> str` for a string: after the sentry the string is erased and
receives the characters up to the next white space, which stays unread.  When the
sentry fails the string keeps its content. -/
def extractString (cin : IStream) (str : CppString) : IStream × CppString :=
  let sn := sentry cin false
  if sn.2 then
    let tok := sn.1.buf.takeWhile (fun c => !isSpace c)
    let rest := sn.1.buf.dropWhile (fun c => !isSpace c)
    ({ buf := rest, eofbit := rest.isEmpty, failbit := tok.isEmpty }, tok)
  else (sn.1, str)

/-- The call `cin.ignore()`: one character is discarded. -/
def ignore1 (cin : IStream) : IStream :=
  let sn := sentry cin true
  if sn.2 then
    match sn.1.buf with
    | [] => { sn.1 with eofbit := true }
    | _ :: rest => { sn.1 with buf := rest }
  else sn.1

/-- The call `cin.ignore(numeric_limits<streamsize>::max(), '\n')`: characters are
discarded up to and including the next newline. -/
def ignoreLine (cin : IStream) : IStream :=
  let sn := sentry cin true
  if sn.2 then
    match sn.1.buf.dropWhile (fun c => c != '\n') with
    | [] => { sn.1 with buf := [], eofbit := true }
    | _ :: rest => { sn.1 with buf := rest }
  else sn.1

/-- The call `getline(cin, str)`: after the sentry the string is erased and receives the
characters up to the next newline, which is discarded.  When nothing at all could be
extracted `failbit` is raised. -/
def getline (cin : IStream) (str : CppString) : IStream × CppString :=
  let sn := sentry cin true
  if sn.2 then
    let line := sn.1.buf.takeWhile (fun c => c != '\n')
    match sn.1.buf.dropWhile (fun c => c != '\n') with
    | [] => ({ buf := [], eofbit := true, failbit := line.isEmpty }, line)
    | _ :: rest => ({ sn.1 with buf := rest }, line)
  else (sn.1, str)

/-- The numeric conversion of the library (`num_get`), a parameter of the model: from the
unread characters it gives the converted number, or `none` when the conversion fails,
and the characters it leaves unread. -/
abbrev NumGet := List Char → Option ℚ × List Char

/-- The operation `cin >> value` for a `double`: white space is skipped, then the numeric
conversion runs.  A failed conversion stores `0` and raises `failbit`; when the sentry
fails `value` keeps its content. -/
def extractDouble (numGet : NumGet) (cin : IStream) (value : ℚ) : IStream × ℚ :=
  let sn := sentry cin false
  if sn.2 then
    let r := numGet sn.1.buf
    match r.1 with
    | some x => ({ buf := r.2, eofbit := r.2.isEmpty, failbit := false }, x)
    | none => ({ buf := r.2, eofbit := r.2.isEmpty, failbit := true }, 0)
  else (sn.1, value)

/-- A numeric conversion for integer literals, an optional sign followed by decimal
digits; on such input every implementation of the library gives this result. -/
def integerNumGet : NumGet := fun buf =>
  let signed : Bool × List Char :=
    match buf with
    | '-' :: r => (true, r)
    | '+' :: r => (false, r)
    | _ => (false, buf)
  let ds := signed.2.takeWhile isDigit
  let rest := signed.2.dropWhile isDigit
  if ds.isEmpty then (none, rest)
  else if signed.1 then (some (-(digitsValue ds : ℚ)), rest)
  else (some (digitsValue ds : ℚ), rest)

/-! ## Reading a ticket -/

/-- One pass through the body of the `while (true)` loop of `getPositiveNumber`: the
stream and the local `value` afterwards, and whether the pass reached `return value`. -/
def getPositiveNumberPass (numGet : NumGet) (cin : IStream) (value : ℚ) :
    IStream × ℚ × Bool :=
  let r := extractDouble numGet cin value
  if r.1.fail || decide (r.2 ≤ 0) then (ignoreLine r.1.clear, r.2, false)
  else (r.1, r.2, true)

/-- The function `getPositiveNumber`, with a bound on the number of passes; `value` is the
indeterminate initial content of the local of that name.  `none`: the bound was reached. -/
def getPositiveNumber (numGet : NumGet) : Nat → IStream → ℚ → Option (ℚ × IStream)
  | 0, _, _ => none
  | fuel + 1, cin, value =>
    let p := getPositiveNumberPass numGet cin value
    if p.2.2 then some (p.2.1, p.1) else getPositiveNumber numGet fuel p.1 p.2.1

/-- Control points of `inputTickets`: before the first read, at the head of each of the
two `do ... while` loops, inside the loop of `getPositiveNumber`, and after `push_back`. -/
inductive Loc where
  | start
  | departure
  | travel
  | price
  | done
  deriving DecidableEq

/-- The state of a call of `inputTickets`: the stream, the local `ticket`, the local
`value` of `getPositiveNumber`, the vector and the control point. -/
structure InputState where
  cin : IStream
  ticket : TrainTicket
  value : ℚ
  tickets : List TrainTicket
  loc : Loc
  deriving DecidableEq

/-- One step of `inputTickets`: the straight-line reads of the train number and the
destination, or one pass through one of the three loops. -/
def inputStep (numGet : NumGet) (s : InputState) : InputState :=
  match s.loc with
  | Loc.start =>
    let r1 := extractString s.cin s.ticket.trainNumber
    let c2 := ignore1 r1.1
    let r3 := getline c2 s.ticket.destination
    { s with cin := r3.1,
             ticket := { s.ticket with trainNumber := r1.2, destination := r3.2 },
             loc := Loc.departure }
  | Loc.departure =>
    let r := extractString s.cin s.ticket.departureTime
    { s with cin := r.1,
             ticket := { s.ticket with departureTime := r.2 },
             loc := if isValidTimeFormat r.2 then Loc.travel else Loc.departure }
  | Loc.travel =>
    let r := extractString s.cin s.ticket.travelTime
    { s with cin := r.1,
             ticket := { s.ticket with travelTime := r.2 },
             loc := if isValidTimeFormat r.2 then Loc.price else Loc.travel }
  | Loc.price =>
    let p := getPositiveNumberPass numGet s.cin s.value
    if p.2.2 then
      { s with cin := p.1, value := p.2.1,
               ticket := { s.ticket with price := p.2.1 },
               tickets := s.tickets ++ [{ s.ticket with price := p.2.1 }],
               loc := Loc.done }
    else { s with cin := p.1, value := p.2.1 }
  | Loc.done => s

/-- The state at the entry of `inputTickets`: the strings of the local `ticket` are
empty, its `price` and the local `value` hold the indeterminate number `junk`. -/
def inputStart (junk : ℚ) (cin : IStream) (tickets : List TrainTicket) : InputState :=
  { cin := cin, ticket := ⟨[], [], [], [], junk⟩, value := junk, tickets := tickets,
    loc := Loc.start }

/-- The state after `fuel` steps of `inputTickets`. -/
def inputRun (numGet : NumGet) : Nat → InputState → InputState
  | 0, s => s
  | fuel + 1, s => inputRun numGet fuel (inputStep numGet s)

/-- The function `inputTickets` run for at most `fuel` steps: the stream and the vector
at its return, or `none` when it has not returned within the bound. -/
def inputTickets (numGet : NumGet) (junk : ℚ) (fuel : Nat) (cin : IStream)
    (tickets : List TrainTicket) : Option (IStream × List TrainTicket) :=
  let s := inputRun numGet fuel (inputStart junk cin tickets)
  if s.loc = Loc.done then some (s.cin, s.tickets) else none

/-! ## Sorting -/

/-- The library routine `std::sort(first, last)` on a vector of tickets, a parameter of
the model: it receives the comparison and the elements and gives their new order. -/
abbrev StdSort := (TrainTicket → TrainTicket → Bool) → List TrainTicket → List TrainTicket

/-- The requirement of `std::sort` on its comparison: a strict weak ordering. -/
structure StrictWeakOrder (lt : TrainTicket → TrainTicket → Bool) : Prop where
  irrefl : ∀ a, lt a a = false
  trans : ∀ a b c, lt a b = true → lt b c = true → lt a c = true
  incomp_trans : ∀ a b c, lt a b = false → lt b a = false → lt b c = false →
    lt c b = false → lt a c = false ∧ lt c a = false

/-- The documented contract of `std::sort`: for a strict weak ordering the result is a
rearrangement of the input in which no element is smaller than one that precedes it.
The order of equivalent elements is not fixed by the contract. -/
def SortContract (stdSort : StdSort) : Prop :=
  ∀ lt, StrictWeakOrder lt → ∀ xs,
    (stdSort lt xs).Perm xs ∧ (stdSort lt xs).Pairwise (fun a b => lt b a = false)

/-- The function `sortByDepartureTime`. -/
def sortByDepartureTime (stdSort : StdSort) (tickets : List TrainTicket) :
    List TrainTicket :=
  if tickets.isEmpty then tickets else stdSort TrainTicket.lt tickets

/-- Insertion of `x` into a sorted list, after the elements that are not greater. -/
def insertSorted (lt : TrainTicket → TrainTicket → Bool) (x : TrainTicket) :
    List TrainTicket → List TrainTicket
  | [] => [x]
  | y :: ys => if lt x y then x :: y :: ys else y :: insertSorted lt x ys

/-- A sorting routine that meets the contract of `std::sort`: insertion sort, building
the result from the last element backwards. -/
def insertionSort : StdSort := fun lt xs =>
  xs.foldr (insertSorted lt) []


/-! ## Predicates used in the statements -/

/-- The loop condition at the current control point of `inputTickets` sends the entry
that is read next back to the prompt: the string is not a valid time, or the
extraction of the number failed or gave a value `<= 0`. -/
def rejectsNext (numGet : NumGet) (s : InputState) : Bool :=
  match s.loc with
  | Loc.departure => !isValidTimeFormat (extractString s.cin s.ticket.departureTime).2
  | Loc.travel => !isValidTimeFormat (extractString s.cin s.ticket.travelTime).2
  | Loc.price =>
    (extractDouble numGet s.cin s.value).1.fail ||
      decide ((extractDouble numGet s.cin s.value).2 ≤ 0)
  | _ => false

/-- What holds at each control point of a call of `inputTickets` that was entered with
the vector `tickets0`. -/
def InputInv (tickets0 : List TrainTicket) (s : InputState) : Prop :=
  match s.loc with
  | Loc.start =>
    s.tickets = tickets0 ∧ s.ticket.trainNumber = [] ∧ s.ticket.departureTime = []
  | Loc.departure =>
    s.tickets = tickets0 ∧
      (s.ticket.trainNumber ≠ [] ∨ (s.cin.failbit = true ∧ s.ticket.departureTime = []))
  | Loc.travel =>
    s.tickets = tickets0 ∧ s.ticket.trainNumber ≠ [] ∧
      isValidTimeFormat s.ticket.departureTime = true
  | Loc.price =>
    s.tickets = tickets0 ∧ s.ticket.trainNumber ≠ [] ∧
      isValidTimeFormat s.ticket.departureTime = true ∧
      isValidTimeFormat s.ticket.travelTime = true
  | Loc.done =>
    s.tickets = tickets0 ++ [s.ticket] ∧ s.ticket.trainNumber ≠ [] ∧
      isValidTimeFormat s.ticket.departureTime = true ∧
      isValidTimeFormat s.ticket.travelTime = true ∧ 0 < s.ticket.price

/-- The vectors the program can hold: the empty vector at the start, then the result of
any returning call of `inputTickets` and of any call of `sortByDepartureTime`. -/
inductive Reachable (numGet : NumGet) (stdSort : StdSort) : List TrainTicket → Prop where
  | empty : Reachable numGet stdSort []
  | add (junk : ℚ) (fuel : Nat) (cin cin1 : IStream) (tickets tickets1 : List TrainTicket) :
      Reachable numGet stdSort tickets →
      inputTickets numGet junk fuel cin tickets = some (cin1, tickets1) →
      Reachable numGet stdSort tickets1
  | sort (tickets : List TrainTicket) :
      Reachable numGet stdSort tickets →
      Reachable numGet stdSort (sortByDepartureTime stdSort tickets)

/-- The time of day in minutes that a string stands for, its hours and minutes being the
two numbers `isValidTimeFormat` converts. -/
def minutesOfDay (time : CppString) : Option Int :=
  match stoi (substr time 0 2), stoi (substr time 3 2) with
  | some hours, some minutes => some (hours * 60 + minutes)
  | _, _ => none


/-! ## The operations of `isValidTimeFormat` that can fail -/

/-- The access `str[pos]` on a constant string: defined for `pos <= str.length()`, where
the position one past the last character holds the null character.  `none` stands for
undefined behaviour. -/
def index (str : CppString) (pos : Nat) : Option Char :=
  if pos < str.length then str.get? pos
  else if pos = str.length then some (Char.ofNat 0)
  else none

/-- The call `str.substr(pos, len)` with its precondition: `none` stands for the
exception `out_of_range`, thrown when `pos > str.length()`. -/
def substrChecked (str : CppString) (pos len : Nat) : Option CppString :=
  if pos ≤ str.length then some (substr str pos len) else none

/-- The function `isValidTimeFormat` with the failures of its operations made explicit.
`none` stands for a call that does not return a boolean: undefined behaviour of
`time[2]`, or an exception that leaves the function.  The operator `||` evaluates
`time[2]` only when the lengths are equal; every exception raised inside the `try`
block, by `substr` or by `stoi`, is caught and gives `false`. -/
def isValidTimeFormatChecked (time : CppString) : Option Bool :=
  if time.length ≠ 5 then some false
  else
    match index time 2 with
    | none => none
    | some c =>
      if c ≠ ':' then some false
      else
        match (substrChecked time 0 2).bind stoi with
        | none => some false
        | some hours =>
          match (substrChecked time 3 2).bind stoi with
          | none => some false
          | some minutes => some ((decide (0 ≤ hours) && decide (hours < 24)) &&
              (decide (0 ≤ minutes) && decide (minutes < 60)))

/-! ## The queries -/

/-- The function `displayAllTickets`: the records whose five fields are written, one row
each, in the order of the rows.  `none` stands for the message that there is no data. -/
def displayAllTickets (tickets : List TrainTicket) : Option (List TrainTicket) :=
  if tickets.isEmpty then none
  else some (tickets.foldl (fun rows ticket => rows ++ [ticket]) [])

/-- The library routine `std::min_element` on a non-empty range, dereferenced: the
element `smallest` is replaced only by an element that compares less than it. -/
def minElement (comp : TrainTicket → TrainTicket → Bool) (first : TrainTicket)
    (rest : List TrainTicket) : TrainTicket :=
  rest.foldl (fun smallest x => if comp x smallest then x else smallest) first

/-- What `findCheapestToDestination` writes: that there is no data, that no ticket goes
to the destination that was read, or the row of the cheapest ticket to it. -/
inductive CheapestOutcome where
  | noData
  | notFound (destination : CppString)
  | cheapest (destination : CppString) (ticket : TrainTicket)
  deriving DecidableEq

/-- The function `findCheapestToDestination`: the stream and the vector afterwards, and
what is written.  With an empty vector it returns before anything is read. -/
def findCheapestToDestination (cin : IStream) (tickets : List TrainTicket) :
    IStream × List TrainTicket × CheapestOutcome :=
  if tickets.isEmpty then (cin, tickets, CheapestOutcome.noData)
  else
    let r := getline (ignore1 cin) []
    match tickets.filter (fun t => decide (t.destination = r.2)) with
    | [] => (r.1, tickets, CheapestOutcome.notFound r.2)
    | first :: rest =>
      (r.1, tickets, CheapestOutcome.cheapest r.2
        (minElement (fun a b => decide (a.price < b.price)) first rest))

/-! ## The menu loop -/

/-- The numeric conversion of the library for an `int`, a parameter of the model: whether
the conversion failed, the number it stores (`0` after a failure for lack of digits, the
nearest bound after an overflow) and the characters it leaves unread. -/
abbrev IntGet := List Char → Bool × Int × List Char

/-- The operation `cin >> choice` for an `int`. -/
def extractInt (intGet : IntGet) (cin : IStream) (choice : Int) : IStream × Int :=
  let sn := sentry cin false
  if sn.2 then
    let r := intGet sn.1.buf
    ({ buf := r.2.2, eofbit := r.2.2.isEmpty, failbit := r.1 }, r.2.1)
  else (sn.1, choice)

/-- The `switch` statement of `main`: the stream and the vector after the selected
operation.  The operations of the choices 2 and 3 take the vector by constant reference
and read nothing.  `none`: `inputTickets` has not returned within the bound. -/
def menuAction (numGet : NumGet) (stdSort : StdSort) (junk : ℚ) (fuel : Nat) (choice : Int)
    (cin : IStream) (tickets : List TrainTicket) : Option (IStream × List TrainTicket) :=
  if choice = 1 then inputTickets numGet junk fuel cin tickets
  else if choice = 2 then some (cin, tickets)
  else if choice = 3 then some (cin, tickets)
  else if choice = 4 then
    some ((findCheapestToDestination cin tickets).1, (findCheapestToDestination cin tickets).2.1)
  else if choice = 5 then some (cin, sortByDepartureTime stdSort tickets)
  else if choice = 6 then some (cin, tickets)
  else some (ignoreLine cin.clear, tickets)

/-- The condition `choice = 6` of the `do ... while` loop of `main`, an assignment: the
content of `choice` afterwards, and the value of the expression converted to `bool`. -/
def loopCondition (_choice : Int) : Int × Bool :=
  (6, decide ((6 : Int) ≠ 0))

/-- The state of `main`: the stream, the vector and the local `choice`. -/
structure MainState where
  cin : IStream
  tickets : List TrainTicket
  choice : Int

/-- The `do ... while` loop of `main`, run for at most `fuel` iterations, each call of
`inputTickets` for at most `fuelInput` steps.  `some`: the state in which the loop ends.
`none`: it has not ended within the bounds. -/
def mainLoop (numGet : NumGet) (intGet : IntGet) (stdSort : StdSort) (junk : ℚ)
    (fuelInput : Nat) : Nat → MainState → Option MainState
  | 0, _ => none
  | fuel + 1, s =>
    let r := extractInt intGet s.cin s.choice
    match menuAction numGet stdSort junk fuelInput r.2 r.1 s.tickets with
    | none => none
    | some after =>
      let c := loopCondition r.2
      if c.2 then mainLoop numGet intGet stdSort junk fuelInput fuel ⟨after.1, after.2, c.1⟩
      else some ⟨after.1, after.2, c.1⟩


/-! ## The sorting routine of the GNU C++ library -/

/-- The element at index `i` of the vector.  An index outside the vector is undefined
behaviour in the library; it does not occur when the comparison is a strict weak
ordering. -/
def elemAt (a : List TrainTicket) (i : Nat) : TrainTicket :=
  a.getD i ⟨[], [], [], [], 0⟩

/-- The library routine `std::iter_swap` on two positions of the vector. -/
def iterSwap (a : List TrainTicket) (i j : Nat) : List TrainTicket :=
  (a.set i (elemAt a j)).set j (elemAt a i)

/-- The library routine `std::__lg`: the position of the highest set bit. -/
def lg : Nat → Nat → Nat
  | 0, _ => 0
  | fuel + 1, n => if 2 ≤ n then lg fuel (n / 2) + 1 else 0

/-- The library routine `__move_median_to_first`: the median of the elements at `x`,
`y` and `z` is swapped to the position `result`. -/
def moveMedianToFirst (comp : TrainTicket → TrainTicket → Bool) (a : List TrainTicket)
    (result x y z : Nat) : List TrainTicket :=
  if comp (elemAt a x) (elemAt a y) then
    if comp (elemAt a y) (elemAt a z) then iterSwap a result y
    else if comp (elemAt a x) (elemAt a z) then iterSwap a result z
    else iterSwap a result x
  else if comp (elemAt a x) (elemAt a z) then iterSwap a result x
  else if comp (elemAt a y) (elemAt a z) then iterSwap a result z
  else iterSwap a result y

/-- The first inner loop of `__unguarded_partition`: `first` moves up while the element
there is less than the pivot. -/
def scanUp (comp : TrainTicket → TrainTicket → Bool) (a : List TrainTicket) (pivot : Nat) :
    Nat → Nat → Nat
  | 0, first => first
  | fuel + 1, first =>
    if comp (elemAt a first) (elemAt a pivot) then scanUp comp a pivot fuel (first + 1)
    else first

/-- The second inner loop of `__unguarded_partition`: `last` moves down while the pivot
is less than the element there. -/
def scanDown (comp : TrainTicket → TrainTicket → Bool) (a : List TrainTicket) (pivot : Nat) :
    Nat → Nat → Nat
  | 0, last => last
  | fuel + 1, last =>
    if comp (elemAt a pivot) (elemAt a last) then scanDown comp a pivot fuel (last - 1)
    else last

/-- The library routine `__unguarded_partition`: the vector afterwards and the cut. -/
def unguardedPartition (comp : TrainTicket → TrainTicket → Bool) (pivot : Nat) :
    Nat → List TrainTicket → Nat → Nat → List TrainTicket × Nat
  | 0, a, first, _ => (a, first)
  | fuel + 1, a, first, last =>
    let first1 := scanUp comp a pivot a.length first
    let last1 := scanDown comp a pivot a.length (last - 1)
    if first1 < last1 then
      unguardedPartition comp pivot fuel (iterSwap a first1 last1) (first1 + 1) last1
    else (a, first1)

/-- The library routine `__unguarded_partition_pivot`. -/
def unguardedPartitionPivot (comp : TrainTicket → TrainTicket → Bool)
    (a : List TrainTicket) (first last : Nat) : List TrainTicket × Nat :=
  let mid := first + (last - first) / 2
  unguardedPartition comp first a.length
    (moveMedianToFirst comp a first (first + 1) mid (last - 1)) (first + 1) last

/-- The library routine `__push_heap`. -/
def pushHeap (comp : TrainTicket → TrainTicket → Bool) (value : TrainTicket)
    (first topIndex : Nat) : Nat → List TrainTicket → Nat → List TrainTicket
  | 0, a, holeIndex => a.set (first + holeIndex) value
  | fuel + 1, a, holeIndex =>
    let parent := (holeIndex - 1) / 2
    if topIndex < holeIndex && comp (elemAt a (first + parent)) value then
      pushHeap comp value first topIndex fuel
        (a.set (first + holeIndex) (elemAt a (first + parent))) parent
    else a.set (first + holeIndex) value

/-- The loop of `__adjust_heap`: the hole moves down to the greater child. -/
def siftDown (comp : TrainTicket → TrainTicket → Bool) (first len : Nat) :
    Nat → List TrainTicket → Nat → List TrainTicket × Nat
  | 0, a, secondChild => (a, secondChild)
  | fuel + 1, a, secondChild =>
    if secondChild < (len - 1) / 2 then
      let child := 2 * (secondChild + 1)
      let child1 :=
        if comp (elemAt a (first + child)) (elemAt a (first + (child - 1))) then child - 1
        else child
      siftDown comp first len fuel (a.set (first + secondChild) (elemAt a (first + child1)))
        child1
    else (a, secondChild)

/-- The library routine `__adjust_heap`. -/
def adjustHeap (comp : TrainTicket → TrainTicket → Bool) (a : List TrainTicket)
    (first holeIndex len : Nat) (value : TrainTicket) : List TrainTicket :=
  let r := siftDown comp first len len a holeIndex
  let r1 : List TrainTicket × Nat :=
    if len % 2 = 0 ∧ r.2 = (len - 2) / 2 then
      (r.1.set (first + r.2) (elemAt r.1 (first + (2 * (r.2 + 1) - 1))), 2 * (r.2 + 1) - 1)
    else r
  pushHeap comp value first holeIndex len r1.1 r1.2

/-- The library routine `__pop_heap`. -/
def popHeap (comp : TrainTicket → TrainTicket → Bool) (a : List TrainTicket)
    (first last result : Nat) : List TrainTicket :=
  adjustHeap comp (a.set result (elemAt a first)) first 0 (last - first) (elemAt a result)

/-- The library routine `__make_heap`. -/
def makeHeap (comp : TrainTicket → TrainTicket → Bool) (a : List TrainTicket)
    (first last : Nat) : List TrainTicket :=
  if last - first < 2 then a
  else
    (List.range ((last - first - 2) / 2 + 1)).reverse.foldl
      (fun a parent => adjustHeap comp a first parent (last - first) (elemAt a (first + parent)))
      a

/-- The library routine `__heap_select`. -/
def heapSelect (comp : TrainTicket → TrainTicket → Bool) (a : List TrainTicket)
    (first middle last : Nat) : List TrainTicket :=
  (List.range (last - middle)).foldl
    (fun a k =>
      if comp (elemAt a (middle + k)) (elemAt a first) then
        popHeap comp a first middle (middle + k)
      else a)
    (makeHeap comp a first middle)

/-- The library routine `__sort_heap`. -/
def sortHeap (comp : TrainTicket → TrainTicket → Bool) (a : List TrainTicket)
    (first last : Nat) : List TrainTicket :=
  (List.range (last - first - 1)).foldl
    (fun a k => popHeap comp a first (last - 1 - k) (last - 1 - k)) a

/-- The library routine `__partial_sort`. -/
def partialSort (comp : TrainTicket → TrainTicket → Bool) (a : List TrainTicket)
    (first middle last : Nat) : List TrainTicket :=
  sortHeap comp (heapSelect comp a first middle last) first middle

/-- The library routine `__introsort_loop`; every pass through its loop lowers the depth
limit, and so does the recursive call. -/
def introsortLoop (comp : TrainTicket → TrainTicket → Bool) :
    Nat → List TrainTicket → Nat → Nat → List TrainTicket
  | 0, a, first, last =>
    if 16 < last - first then partialSort comp a first last last else a
  | depthLimit + 1, a, first, last =>
    if 16 < last - first then
      let r := unguardedPartitionPivot comp a first last
      introsortLoop comp depthLimit (introsortLoop comp depthLimit r.1 r.2 last) first r.2
    else a

/-- The library routine `__unguarded_linear_insert`: the element `val`, taken from the
position `last`, moves down past the elements it is less than. -/
def unguardedLinearInsert (comp : TrainTicket → TrainTicket → Bool) (val : TrainTicket) :
    Nat → List TrainTicket → Nat → List TrainTicket
  | 0, a, last => a.set last val
  | fuel + 1, a, last =>
    if comp val (elemAt a (last - 1)) then
      unguardedLinearInsert comp val fuel (a.set last (elemAt a (last - 1))) (last - 1)
    else a.set last val

/-- The library routine `__insertion_sort`. -/
def gnuInsertionSort (comp : TrainTicket → TrainTicket → Bool) (a : List TrainTicket)
    (first last : Nat) : List TrainTicket :=
  (List.range (last - first - 1)).foldl
    (fun a k =>
      let i := first + 1 + k
      if comp (elemAt a i) (elemAt a first) then
        a.take first ++ elemAt a i :: (a.drop first).take (i - first) ++ a.drop (i + 1)
      else unguardedLinearInsert comp (elemAt a i) a.length a i)
    a

/-- The library routine `__unguarded_insertion_sort`. -/
def unguardedInsertionSort (comp : TrainTicket → TrainTicket → Bool) (a : List TrainTicket)
    (first last : Nat) : List TrainTicket :=
  (List.range (last - first)).foldl
    (fun a k => unguardedLinearInsert comp (elemAt a (first + k)) a.length a (first + k)) a

/-- The library routine `__final_insertion_sort`. -/
def finalInsertionSort (comp : TrainTicket → TrainTicket → Bool) (a : List TrainTicket)
    (first last : Nat) : List TrainTicket :=
  if 16 < last - first then
    unguardedInsertionSort comp (gnuInsertionSort comp a first (first + 16)) (first + 16) last
  else gnuInsertionSort comp a first last

/-- The routine `std::sort` as the GNU C++ library (libstdc++) implements it: an
introsort that stops at ranges of 16 elements, followed by an insertion sort. -/
def gnuSort : StdSort := fun comp a =>
  if a.length = 0 then a
  else
    finalInsertionSort comp
      (introsortLoop comp (lg a.length a.length * 2) a 0 a.length) 0 a.length

/-- Seventeen tickets that all leave at 08:00, with the train numbers T01 to T17. -/
def seventeenTickets : List TrainTicket :=
  [⟨"T01".toList, "Boston".toList, "08:00".toList, "01:00".toList, 10⟩,
   ⟨"T02".toList, "Boston".toList, "08:00".toList, "01:00".toList, 10⟩,
   ⟨"T03".toList, "Boston".toList, "08:00".toList, "01:00".toList, 10⟩,
   ⟨"T04".toList, "Boston".toList, "08:00".toList, "01:00".toList, 10⟩,
   ⟨"T05".toList, "Boston".toList, "08:00".toList, "01:00".toList, 10⟩,
   ⟨"T06".toList, "Boston".toList, "08:00".toList, "01:00".toList, 10⟩,
   ⟨"T07".toList, "Boston".toList, "08:00".toList, "01:00".toList, 10⟩,
   ⟨"T08".toList, "Boston".toList, "08:00".toList, "01:00".toList, 10⟩,
   ⟨"T09".toList, "Boston".toList, "08:00".toList, "01:00".toList, 10⟩,
   ⟨"T10".toList, "Boston".toList, "08:00".toList, "01:00".toList, 10⟩,
   ⟨"T11".toList, "Boston".toList, "08:00".toList, "01:00".toList, 10⟩,
   ⟨"T12".toList, "Boston".toList, "08:00".toList, "01:00".toList, 10⟩,
   ⟨"T13".toList, "Boston".toList, "08:00".toList, "01:00".toList, 10⟩,
   ⟨"T14".toList, "Boston".toList, "08:00".toList, "01:00".toList, 10⟩,
   ⟨"T15".toList, "Boston".toList, "08:00".toList, "01:00".toList, 10⟩,
   ⟨"T16".toList, "Boston".toList, "08:00".toList, "01:00".toList, 10⟩,
   ⟨"T17".toList, "Boston".toList, "08:00".toList, "01:00".toList, 10⟩]

/-! ## Properties of the string comparison -/

theorem compare_self (a : CppString) : compare a a = Ordering.eq := by
  induction a with
  | nil => rfl
  | cons c cs ih => simp [compare, ih]

theorem compare_eq_iff (a b : CppString) : compare a b = Ordering.eq ↔ a = b := by
  induction a generalizing b with
  | nil => cases b <;> simp [compare]
  | cons c cs ih =>
    cases b with
    | nil => simp [compare]
    | cons d ds =>
      simp only [compare]
      split_ifs with h1 h2
      · simp only [false_iff, reduceCtorEq]
        intro h
        injection h with hc _
        rw [hc] at h1
        exact Nat.lt_irrefl _ h1
      · simp only [false_iff, reduceCtorEq]
        intro h
        injection h with hc _
        rw [hc] at h2
        exact Nat.lt_irrefl _ h2
      · have hcd : c = d := by
          apply Char.ext
          apply UInt32.ext
          have : c.toNat = d.toNat := by omega
          exact this
        rw [ih ds, hcd]
        simp

theorem compare_gt_iff_lt (a b : CppString) :
    compare a b = Ordering.gt ↔ compare b a = Ordering.lt := by
  induction a generalizing b with
  | nil => cases b <;> simp [compare]
  | cons c cs ih =>
    cases b with
    | nil => simp [compare]
    | cons d ds =>
      simp only [compare]
      split_ifs with h1 h2 <;> first | omega | simp [ih]

theorem compare_gt_trans (a b c : CppString) (hab : compare a b = Ordering.gt)
    (hbc : compare b c = Ordering.gt) : compare a c = Ordering.gt := by
  induction a generalizing b c with
  | nil => cases b <;> simp [compare] at hab
  | cons x xs ih =>
    cases b with
    | nil => cases c <;> simp [compare] at hbc
    | cons y ys =>
      cases c with
      | nil => simp [compare]
      | cons z zs =>
        simp only [compare] at hab hbc ⊢
        split_ifs at hab hbc ⊢ with h1 h2 h3 h4 h5 h6 h7 h8 <;>
          first | omega | rfl | exact ih _ _ hab hbc

theorem strGe_iff_not_gt (a b : CppString) : strGe a b = true ↔ strGt b a = false := by
  unfold strGe strGt
  have h := compare_gt_iff_lt b a
  cases hc : compare a b <;> cases hd : compare b a <;> simp_all

theorem strGe_antisymm (a b : CppString) (hab : strGe a b = true) (hba : strGe b a = true) :
    a = b := by
  rw [strGe_iff_not_gt] at hab hba
  unfold strGt at hab hba
  have h1 := compare_gt_iff_lt a b
  have h2 := compare_gt_iff_lt b a
  apply (compare_eq_iff a b).mp
  cases hc : compare a b <;> simp_all

theorem strGt_irrefl (a : CppString) : strGt a a = false := by
  simp [strGt, compare_self]

theorem strGt_trans (a b c : CppString) (hab : strGt a b = true) (hbc : strGt b c = true) :
    strGt a c = true := by
  unfold strGt at *
  simp only [decide_eq_true_eq] at *
  exact compare_gt_trans a b c hab hbc

theorem strGt_incomparable (a b : CppString) (hab : strGt a b = false)
    (hba : strGt b a = false) : a = b :=
  strGe_antisymm a b ((strGe_iff_not_gt a b).mpr hba) ((strGe_iff_not_gt b a).mpr hab)

/-! ## The comparison of tickets meets the requirement of `std::sort` -/

theorem lt_strictWeakOrder : StrictWeakOrder TrainTicket.lt where
  irrefl := fun a => strGt_irrefl a.departureTime
  trans := fun a b c hab hbc => strGt_trans _ _ _ hab hbc
  incomp_trans := by
    intro a b c h1 h2 h3 h4
    have e1 := strGt_incomparable _ _ h1 h2
    have e2 := strGt_incomparable _ _ h3 h4
    unfold TrainTicket.lt
    rw [e1, e2]
    exact ⟨strGt_irrefl _, strGt_irrefl _⟩

/-! ## Consequences of the contract of `std::sort` -/

theorem swo_asymm {lt : TrainTicket → TrainTicket → Bool} (h : StrictWeakOrder lt)
    (a b : TrainTicket) (hab : lt a b = true) : lt b a = false := by
  cases hba : lt b a with
  | false => rfl
  | true =>
    have := h.trans a b a hab hba
    rw [h.irrefl a] at this
    exact absurd this (by simp)

theorem swo_not_lt_trans {lt : TrainTicket → TrainTicket → Bool} (h : StrictWeakOrder lt)
    (a b c : TrainTicket) (hba : lt b a = false) (hcb : lt c b = false) : lt c a = false := by
  cases hca : lt c a with
  | false => rfl
  | true =>
    cases hab : lt a b with
    | true =>
      have := h.trans c a b hca hab
      rw [hcb] at this
      exact absurd this (by simp)
    | false =>
      cases hbc : lt b c with
      | true =>
        have := h.trans b c a hbc hca
        rw [hba] at this
        exact absurd this (by simp)
      | false =>
        have := (h.incomp_trans a b c hab hba hbc hcb).2
        rw [hca] at this
        exact absurd this (by simp)

theorem insertSorted_perm (lt : TrainTicket → TrainTicket → Bool) (x : TrainTicket)
    (ys : List TrainTicket) : (insertSorted lt x ys).Perm (x :: ys) := by
  induction ys with
  | nil => exact List.Perm.refl _
  | cons y ys ih =>
    unfold insertSorted
    split_ifs
    · exact List.Perm.refl _
    · exact (List.Perm.cons y ih).trans (List.Perm.swap x y ys)

theorem insertSorted_pairwise {lt : TrainTicket → TrainTicket → Bool}
    (h : StrictWeakOrder lt) (x : TrainTicket) (ys : List TrainTicket)
    (hys : ys.Pairwise (fun a b => lt b a = false)) :
    (insertSorted lt x ys).Pairwise (fun a b => lt b a = false) := by
  induction ys with
  | nil => simp [insertSorted]
  | cons y ys ih =>
    rw [List.pairwise_cons] at hys
    unfold insertSorted
    split_ifs with hxy
    · refine List.pairwise_cons.mpr ⟨?_, List.pairwise_cons.mpr hys⟩
      intro z hz
      rcases List.mem_cons.mp hz with rfl | hz
      · exact swo_asymm h x z hxy
      · cases hzx : lt z x with
        | false => rfl
        | true =>
          have := h.trans z x y hzx hxy
          rw [hys.1 z hz] at this
          exact absurd this (by simp)
    · refine List.pairwise_cons.mpr ⟨?_, ih hys.2⟩
      intro z hz
      rcases List.mem_cons.mp ((insertSorted_perm lt x ys).mem_iff.mp hz) with rfl | hz
      · simpa using hxy
      · exact hys.1 z hz

theorem insertionSort_contract : SortContract insertionSort := by
  intro lt h xs
  induction xs with
  | nil => exact ⟨List.Perm.refl _, List.Pairwise.nil⟩
  | cons x xs ih =>
    have e : insertionSort lt (x :: xs) = insertSorted lt x (insertionSort lt xs) := rfl
    rw [e]
    exact ⟨(insertSorted_perm lt x _).trans (List.Perm.cons x ih.1),
      insertSorted_pairwise h x _ ih.2⟩

theorem sortByDepartureTime_perm_aux (stdSort : StdSort) (h : SortContract stdSort)
    (tickets : List TrainTicket) : (sortByDepartureTime stdSort tickets).Perm tickets := by
  unfold sortByDepartureTime
  split_ifs
  · exact List.Perm.refl _
  · exact (h TrainTicket.lt lt_strictWeakOrder tickets).1

theorem sortByDepartureTime_pairwise (stdSort : StdSort) (h : SortContract stdSort)
    (tickets : List TrainTicket) :
    (sortByDepartureTime stdSort tickets).Pairwise
      (fun a b => strGe a.departureTime b.departureTime = true) := by
  unfold sortByDepartureTime
  split_ifs with he
  · cases tickets with
    | nil => exact List.Pairwise.nil
    | cons t ts => simp at he
  · refine (h TrainTicket.lt lt_strictWeakOrder tickets).2.imp ?_
    intro a b hab
    exact (strGe_iff_not_gt _ _).mpr hab

theorem departureTimes_sorted (stdSort : StdSort) (h : SortContract stdSort)
    (tickets : List TrainTicket) :
    ((sortByDepartureTime stdSort tickets).map TrainTicket.departureTime).Pairwise
      (fun a b => strGe a b = true) :=
  List.pairwise_map.mpr (sortByDepartureTime_pairwise stdSort h tickets)

/-- Two sorted arrangements of the same departure times are equal. -/
theorem departureTimes_unique (xs ys : List CppString) (hp : xs.Perm ys)
    (hx : xs.Pairwise (fun a b => strGe a b = true))
    (hy : ys.Pairwise (fun a b => strGe a b = true)) : xs = ys := by
  haveI : IsAntisymm CppString (fun a b => strGe a b = true) := ⟨strGe_antisymm⟩
  exact List.eq_of_perm_of_sorted hp hx hy


/-! ## Stream operations -/

theorem isValidTimeFormat_nil : isValidTimeFormat [] = false := by decide

theorem dropWhile_append_all (p : Char → Bool) (xs rest : List Char)
    (h : ∀ c ∈ xs, p c = true) : (xs ++ rest).dropWhile p = rest.dropWhile p := by
  induction xs with
  | nil => rfl
  | cons x xs ih =>
    have hx : p x = true := h x (List.mem_cons_self _ _)
    simp only [List.cons_append, List.dropWhile_cons, hx, if_true]
    exact ih (fun c hc => h c (List.mem_cons_of_mem _ hc))

theorem dropWhile_append_stop (p : Char → Bool) (xs : List Char) (y : Char)
    (rest : List Char) (h : ∀ c ∈ xs, p c = true) (hy : p y = false) :
    (xs ++ y :: rest).dropWhile p = y :: rest := by
  rw [dropWhile_append_all p xs _ h]
  simp [List.dropWhile_cons, hy]

theorem takeWhile_append_stop (p : Char → Bool) (xs : List Char) (y : Char)
    (rest : List Char) (h : ∀ c ∈ xs, p c = true) (hy : p y = false) :
    (xs ++ y :: rest).takeWhile p = xs := by
  induction xs with
  | nil => simp [List.takeWhile_cons, hy]
  | cons x xs ih =>
    have hx : p x = true := h x (List.mem_cons_self _ _)
    simp only [List.cons_append, List.takeWhile_cons, hx, if_true]
    rw [ih (fun c hc => h c (List.mem_cons_of_mem _ hc))]

/-- A string extraction either delivers a non-empty token or raises `failbit` and
leaves the string as it was. -/
theorem extractString_cases (cin : IStream) (str : CppString) :
    (extractString cin str).2 ≠ [] ∨
      ((extractString cin str).1.failbit = true ∧ (extractString cin str).2 = str) := by
  unfold extractString sentry
  by_cases hg : cin.good = true
  · simp only [hg, Bool.not_true, Bool.false_eq_true, if_false]
    cases hr : cin.buf.dropWhile isSpace with
    | nil => right; simp
    | cons c r =>
      left
      have hc : isSpace c = false := by
        have := List.head_dropWhile_not isSpace cin.buf (by rw [hr]; simp)
        simpa [hr] using this
      simp [List.takeWhile_cons, hc]
  · right
    simp [hg]

/-- A stream with `failbit` refuses a string extraction. -/
theorem extractString_failed (cin : IStream) (str : CppString) (h : cin.failbit = true) :
    (extractString cin str).1.failbit = true ∧ (extractString cin str).2 = str := by
  simp [extractString, sentry, IStream.good, h]

theorem ignore1_failed (cin : IStream) (h : cin.failbit = true) :
    (ignore1 cin).failbit = true := by
  simp [ignore1, sentry, IStream.good, h]

theorem getline_failed (cin : IStream) (str : CppString) (h : cin.failbit = true) :
    (getline cin str).1.failbit = true := by
  simp [getline, sentry, IStream.good, h]

/-- Extraction of a token that is preceded by white space and followed by a white-space
character. -/
theorem extractString_token (ws tok : List Char) (w : Char) (rest : List Char)
    (str : CppString) (hws : ∀ c ∈ ws, isSpace c = true) (htok : tok ≠ [])
    (hns : ∀ c ∈ tok, isSpace c = false) (hw : isSpace w = true) :
    extractString ⟨ws ++ (tok ++ w :: rest), false, false⟩ str =
      (⟨w :: rest, false, false⟩, tok) := by
  have h1 : (ws ++ (tok ++ w :: rest)).dropWhile isSpace = tok ++ w :: rest := by
    rw [dropWhile_append_all isSpace ws _ hws]
    cases tok with
    | nil => exact absurd rfl htok
    | cons t ts =>
      have ht : isSpace t = false := hns t (List.mem_cons_self _ _)
      simp [List.dropWhile_cons, ht]
  have h2 : (tok ++ w :: rest).takeWhile (fun c => !isSpace c) = tok :=
    takeWhile_append_stop _ tok w rest (fun c hc => by simp [hns c hc]) (by simp [hw])
  have h3 : (tok ++ w :: rest).dropWhile (fun c => !isSpace c) = w :: rest :=
    dropWhile_append_stop _ tok w rest (fun c hc => by simp [hns c hc]) (by simp [hw])
  have h4 : tok.isEmpty = false := by
    cases tok with
    | nil => exact absurd rfl htok
    | cons t ts => rfl
  have h5 : (tok ++ w :: rest).isEmpty = false := by
    cases tok <;> rfl
  simp [extractString, sentry, IStream.good, h1, h2, h3, h4, h5]

theorem ignore1_cons (c : Char) (rest : List Char) :
    ignore1 ⟨c :: rest, false, false⟩ = ⟨rest, false, false⟩ := by
  simp [ignore1, sentry, IStream.good]

/-- Reading a line that ends with a newline. -/
theorem getline_line (line rest : List Char) (str : CppString)
    (h : ∀ c ∈ line, c ≠ '\n') :
    getline ⟨line ++ '\n' :: rest, false, false⟩ str = (⟨rest, false, false⟩, line) := by
  have h2 : (line ++ '\n' :: rest).takeWhile (fun c => c != '\n') = line :=
    takeWhile_append_stop _ line '\n' rest (fun c hc => by simp [h c hc]) (by simp)
  have h3 : (line ++ '\n' :: rest).dropWhile (fun c => c != '\n') = '\n' :: rest :=
    dropWhile_append_stop _ line '\n' rest (fun c hc => by simp [h c hc]) (by simp)
  simp [getline, sentry, IStream.good, h2, h3]

/-! ## The price loop -/

theorem getPositiveNumberPass_accepts (numGet : NumGet) (cin : IStream) (value : ℚ) :
    (getPositiveNumberPass numGet cin value).2.2 = true ↔
      ((extractDouble numGet cin value).1.fail = false ∧
        0 < (extractDouble numGet cin value).2) := by
  unfold getPositiveNumberPass
  by_cases hf : (extractDouble numGet cin value).1.fail = true
  · simp [hf]
  · by_cases hv : (extractDouble numGet cin value).2 ≤ 0
    · simp [hf, hv, not_lt.mpr hv]
    · simp [hf, hv, not_le.mp hv]

theorem getPositiveNumberPass_value (numGet : NumGet) (cin : IStream) (value : ℚ) :
    (getPositiveNumberPass numGet cin value).2.1 = (extractDouble numGet cin value).2 ∧
    ((getPositiveNumberPass numGet cin value).2.2 = true →
      (getPositiveNumberPass numGet cin value).1 = (extractDouble numGet cin value).1) := by
  unfold getPositiveNumberPass
  by_cases hc : ((extractDouble numGet cin value).1.fail ||
      decide ((extractDouble numGet cin value).2 ≤ 0)) = true
  · simp [hc]
  · simp [hc]

theorem getPositiveNumber_pos (numGet : NumGet) (fuel : Nat) (cin : IStream) (value : ℚ)
    (v : ℚ) (cin1 : IStream) (h : getPositiveNumber numGet fuel cin value = some (v, cin1)) :
    0 < v := by
  induction fuel generalizing cin value with
  | zero => simp [getPositiveNumber] at h
  | succ n ih =>
    simp only [getPositiveNumber] at h
    split_ifs at h with hp
    · have hv := ((getPositiveNumberPass_accepts numGet cin value).mp hp).2
      rw [← (getPositiveNumberPass_value numGet cin value).1] at hv
      injection h with h
      injection h with h1 _
      rw [← h1]
      exact hv
    · exact ih _ _ h

/-- When the extraction does not fail, the stream was good, a character other than white
space was waiting, and the numeric conversion delivered the value. -/
theorem extractDouble_ok_iff (numGet : NumGet) (cin : IStream) (value x : ℚ) :
    ((extractDouble numGet cin value).1.fail = false ∧ (extractDouble numGet cin value).2 = x)
      ↔ (cin.good = true ∧ cin.buf.dropWhile isSpace ≠ [] ∧
          (numGet (cin.buf.dropWhile isSpace)).1 = some x) := by
  unfold extractDouble sentry IStream.fail
  by_cases hg : cin.good = true
  · simp only [hg, Bool.not_true, Bool.false_eq_true, if_false, true_and]
    cases hr : cin.buf.dropWhile isSpace with
    | nil => simp
    | cons c r =>
      simp only [List.isEmpty_cons, Bool.false_eq_true, if_false, if_true, ne_eq,
        reduceCtorEq, not_false_eq_true, true_and]
      cases hn : (numGet (c :: r)).1 with
      | none => simp
      | some y => simp
  · simp [hg]


/-! ## The control points of `inputTickets` -/

theorem getPositiveNumberPass_pos (numGet : NumGet) (cin : IStream) (value : ℚ)
    (h : (getPositiveNumberPass numGet cin value).2.2 = true) :
    0 < (getPositiveNumberPass numGet cin value).2.1 := by
  rw [(getPositiveNumberPass_value numGet cin value).1]
  exact ((getPositiveNumberPass_accepts numGet cin value).mp h).2

theorem inputStart_inv (junk : ℚ) (cin : IStream) (tickets : List TrainTicket) :
    InputInv tickets (inputStart junk cin tickets) := by
  simp [InputInv, inputStart]

theorem inputStep_inv (numGet : NumGet) (tickets0 : List TrainTicket) (s : InputState)
    (h : InputInv tickets0 s) : InputInv tickets0 (inputStep numGet s) := by
  obtain ⟨cin, ticket, value, tickets, loc⟩ := s
  cases loc with
  | start =>
    simp only [InputInv, inputStep] at h ⊢
    refine ⟨h.1, ?_⟩
    rcases extractString_cases cin ticket.trainNumber with h1 | ⟨h1, _⟩
    · exact Or.inl h1
    · exact Or.inr ⟨getline_failed _ _ (ignore1_failed _ h1), h.2.2⟩
  | departure =>
    simp only [InputInv, inputStep] at h ⊢
    by_cases hv : isValidTimeFormat (extractString cin ticket.departureTime).2 = true
    · simp only [hv, if_true]
      refine ⟨h.1, ?_, trivial⟩
      rcases h.2 with h2 | ⟨hf, hd⟩
      · exact h2
      · have he := (extractString_failed cin ticket.departureTime hf).2
        rw [he, hd, isValidTimeFormat_nil] at hv
        exact absurd hv (by simp)
    · simp only [hv, if_false]
      refine ⟨h.1, ?_⟩
      rcases h.2 with h2 | ⟨hf, hd⟩
      · exact Or.inl h2
      · have he := extractString_failed cin ticket.departureTime hf
        exact Or.inr ⟨he.1, he.2.trans hd⟩
  | travel =>
    simp only [InputInv, inputStep] at h ⊢
    by_cases hv : isValidTimeFormat (extractString cin ticket.travelTime).2 = true
    · simp only [hv, if_true]
      exact ⟨h.1, h.2.1, h.2.2, trivial⟩
    · simp only [hv, if_false]
      exact h
  | price =>
    simp only [InputInv, inputStep] at h ⊢
    by_cases hp : (getPositiveNumberPass numGet cin value).2.2 = true
    · simp only [hp, if_true]
      refine ⟨?_, h.2.1, h.2.2.1, h.2.2.2, getPositiveNumberPass_pos numGet cin value hp⟩
      rw [h.1]
    · simp only [hp, if_false]
      exact h
  | done => exact h

theorem inputRun_inv (numGet : NumGet) (tickets0 : List TrainTicket) (fuel : Nat)
    (s : InputState) (h : InputInv tickets0 s) :
    InputInv tickets0 (inputRun numGet fuel s) := by
  induction fuel generalizing s with
  | zero => exact h
  | succ n ih => exact ih _ (inputStep_inv numGet tickets0 s h)

/-- Before `push_back` the vector is the one the call was entered with. -/
theorem inputInv_tickets (tickets0 : List TrainTicket) (s : InputState)
    (h : InputInv tickets0 s) (hl : s.loc ≠ Loc.done) : s.tickets = tickets0 := by
  obtain ⟨cin, ticket, value, tickets, loc⟩ := s
  cases loc <;> simp only [InputInv] at h
  · exact h.1
  · exact h.1
  · exact h.1
  · exact h.1
  · exact absurd rfl hl

/-- A call of `inputTickets` that returns has appended exactly one ticket, and that
ticket has passed every check of the call. -/
theorem inputTickets_appends (numGet : NumGet) (junk : ℚ) (fuel : Nat) (cin cin1 : IStream)
    (tickets tickets1 : List TrainTicket)
    (h : inputTickets numGet junk fuel cin tickets = some (cin1, tickets1)) :
    ∃ t : TrainTicket, tickets1 = tickets ++ [t] ∧ t.trainNumber ≠ [] ∧
      isValidTimeFormat t.departureTime = true ∧ isValidTimeFormat t.travelTime = true ∧
      0 < t.price := by
  have hi := inputRun_inv numGet tickets fuel _ (inputStart_inv junk cin tickets)
  unfold inputTickets at h
  simp only at h
  split_ifs at h with hd
  injection h with h
  injection h with _ ht
  generalize inputRun numGet fuel (inputStart junk cin tickets) = s at hi hd ht
  obtain ⟨c, ticket, value, ts, loc⟩ := s
  simp only at hd ht
  subst hd
  simp only [InputInv] at hi
  exact ⟨ticket, by rw [← ht]; exact hi.1, hi.2⟩

theorem inputStep_done (numGet : NumGet) (s : InputState) (h : s.loc = Loc.done) :
    inputStep numGet s = s := by
  obtain ⟨cin, ticket, value, tickets, loc⟩ := s
  simp only at h
  subst h
  rfl

theorem inputRun_done (numGet : NumGet) (fuel : Nat) (s : InputState)
    (h : s.loc = Loc.done) : inputRun numGet fuel s = s := by
  induction fuel with
  | zero => rfl
  | succ n ih =>
    simp only [inputRun]
    rw [inputStep_done numGet s h]
    exact ih

theorem inputRun_add (numGet : NumGet) (m n : Nat) (s : InputState) :
    inputRun numGet (m + n) s = inputRun numGet n (inputRun numGet m s) := by
  induction m generalizing s with
  | zero => simp [inputRun]
  | succ k ih =>
    rw [Nat.succ_add]
    simp only [inputRun]
    exact ih _

/-- The condition of the `if` in `getPositiveNumber` sends the pass to the next one. -/
theorem getPositiveNumberPass_rejects (numGet : NumGet) (cin : IStream) (value : ℚ)
    (h : ((extractDouble numGet cin value).1.fail ||
      decide ((extractDouble numGet cin value).2 ≤ 0)) = true) :
    (getPositiveNumberPass numGet cin value).2.2 = false := by
  unfold getPositiveNumberPass
  simp [h]

/-! ## A call of `inputTickets` whose entries are all accepted at once -/

theorem extractDouble_accept (numGet : NumGet) (buf : List Char) (value p : ℚ)
    (rest : List Char) (hne : buf.dropWhile isSpace ≠ [])
    (hn : numGet (buf.dropWhile isSpace) = (some p, rest)) :
    extractDouble numGet ⟨buf, false, false⟩ value = (⟨rest, rest.isEmpty, false⟩, p) := by
  have he : (buf.dropWhile isSpace).isEmpty = false := by
    cases hb : buf.dropWhile isSpace with
    | nil => exact absurd hb hne
    | cons c r => rfl
  simp [extractDouble, sentry, IStream.good, he, hn]

theorem getPositiveNumberPass_accept (numGet : NumGet) (buf : List Char) (value p : ℚ)
    (rest : List Char) (hne : buf.dropWhile isSpace ≠ [])
    (hn : numGet (buf.dropWhile isSpace) = (some p, rest)) (hp : 0 < p) :
    getPositiveNumberPass numGet ⟨buf, false, false⟩ value =
      (⟨rest, rest.isEmpty, false⟩, p, true) := by
  simp [getPositiveNumberPass, extractDouble_accept numGet buf value p rest hne hn,
    IStream.fail, not_le.mpr hp]

theorem isValidTimeFormat_ne_nil (time : CppString) (h : isValidTimeFormat time = true) :
    time ≠ [] := by
  intro he
  rw [he, isValidTimeFormat_nil] at h
  exact absurd h (by simp)

/-- Four steps take `inputTickets` through an input in which every entry is accepted
the first time it is made. -/
theorem inputRun_accepts (numGet : NumGet) (junk : ℚ) (tickets : List TrainTicket)
    (ws0 tn : List Char) (c1 : Char) (dest ws1 dep : List Char) (w2 : Char)
    (ws2 trav : List Char) (w3 : Char) (rest rest1 : List Char) (p : ℚ)
    (hws0 : ∀ c ∈ ws0, isSpace c = true) (htn : tn ≠ [])
    (htn1 : ∀ c ∈ tn, isSpace c = false) (hc1 : isSpace c1 = true)
    (hdest : ∀ c ∈ dest, c ≠ '\n') (hws1 : ∀ c ∈ ws1, isSpace c = true)
    (hdep : isValidTimeFormat dep = true) (hdep1 : ∀ c ∈ dep, isSpace c = false)
    (hw2 : isSpace w2 = true) (hws2 : ∀ c ∈ ws2, isSpace c = true)
    (htrav : isValidTimeFormat trav = true) (htrav1 : ∀ c ∈ trav, isSpace c = false)
    (hw3 : isSpace w3 = true) (hne : (w3 :: rest).dropWhile isSpace ≠ [])
    (hn : numGet ((w3 :: rest).dropWhile isSpace) = (some p, rest1)) (hp : 0 < p) :
    inputRun numGet 4 (inputStart junk
        ⟨ws0 ++ (tn ++ c1 :: (dest ++ '\n' :: (ws1 ++ (dep ++ w2 ::
          (ws2 ++ (trav ++ w3 :: rest)))))), false, false⟩ tickets) =
      ⟨⟨rest1, rest1.isEmpty, false⟩, ⟨tn, dest, dep, trav, p⟩, p,
        tickets ++ [⟨tn, dest, dep, trav, p⟩], Loc.done⟩ := by
  have e1 := extractString_token ws0 tn c1
    (dest ++ '\n' :: (ws1 ++ (dep ++ w2 :: (ws2 ++ (trav ++ w3 :: rest))))) [] hws0 htn htn1 hc1
  have e2 := getline_line dest (ws1 ++ (dep ++ w2 :: (ws2 ++ (trav ++ w3 :: rest)))) [] hdest
  have e3 := extractString_token ws1 dep w2 (ws2 ++ (trav ++ w3 :: rest)) []
    hws1 (isValidTimeFormat_ne_nil dep hdep) hdep1 hw2
  have e4 := extractString_token (w2 :: ws2) trav w3 rest []
    (fun c hc => by
      rcases List.mem_cons.mp hc with rfl | hc
      · exact hw2
      · exact hws2 c hc)
    (isValidTimeFormat_ne_nil trav htrav) htrav1 hw3
  have e5 := getPositiveNumberPass_accept numGet (w3 :: rest) junk p rest1 hne hn hp
  simp only [List.cons_append] at e4
  simp only [inputRun, inputStart, inputStep, e1, ignore1_cons, e2, e3, hdep, if_true, e4,
    htrav, e5]

theorem inputTickets_of_run (numGet : NumGet) (junk : ℚ) (fuel k : Nat) (cin : IStream)
    (tickets : List TrainTicket) (s : InputState)
    (h : inputRun numGet k (inputStart junk cin tickets) = s) (hd : s.loc = Loc.done) :
    inputTickets numGet junk (fuel + k) cin tickets = some (s.cin, s.tickets) := by
  unfold inputTickets
  rw [Nat.add_comm, inputRun_add, h, inputRun_done numGet fuel s hd]
  simp [hd]

/-! ## The time validator on the examples of its specification -/

/-- C1 (the validator accepts more than the format HH:MM): `isValidTimeFormat` accepts
23:59 and rejects 24:00 and 9:30, but it accepts the string 12:5a, whose last two
characters are not a decimal numeral, because `stoi` converts the leading digit and
ignores what follows it. -/
theorem isValidTimeFormat_examples :
    isValidTimeFormat "23:59".toList = true ∧ isValidTimeFormat "24:00".toList = false ∧
    isValidTimeFormat "9:30".toList = false ∧ isValidTimeFormat "12:5a".toList = true ∧
    stoi "5a".toList = some 5 := by
  decide

/-! ## Adding a ticket -/

/-- C2: every ticket of a vector that is reached from the empty vector by calls of
`inputTickets` and `sortByDepartureTime` has a departure time and a travel time that
`isValidTimeFormat` accepts. -/
theorem reachable_times_valid (numGet : NumGet) (stdSort : StdSort)
    (h : SortContract stdSort) (tickets : List TrainTicket)
    (hr : Reachable numGet stdSort tickets) :
    ∀ t ∈ tickets, isValidTimeFormat t.departureTime = true ∧
      isValidTimeFormat t.travelTime = true := by
  induction hr with
  | empty => intro t ht; simp at ht
  | add junk fuel cin cin1 tickets tickets1 _ hadd ih =>
    obtain ⟨u, hu, _, hd, ht, _⟩ :=
      inputTickets_appends numGet junk fuel cin cin1 tickets tickets1 hadd
    intro t htm
    rw [hu] at htm
    rcases List.mem_append.mp htm with hm | hm
    · exact ih t hm
    · rw [List.mem_singleton.mp hm]
      exact ⟨hd, ht⟩
  | sort tickets _ ih =>
    intro t htm
    exact ih t ((sortByDepartureTime_perm_aux stdSort h tickets).mem_iff.mp htm)

/-- Witness of C2: a ticket is entered and the vector is sorted. -/
theorem reachable_times_valid_witness :
    SortContract insertionSort ∧
    Reachable integerNumGet insertionSort (sortByDepartureTime insertionSort
      [⟨"T1".toList, "Boston".toList, "12:00".toList, "01:00".toList, 5⟩]) ∧
    ∀ t ∈ sortByDepartureTime insertionSort
        [⟨"T1".toList, "Boston".toList, "12:00".toList, "01:00".toList, 5⟩],
      isValidTimeFormat t.departureTime = true ∧ isValidTimeFormat t.travelTime = true :=
  have hr : Reachable integerNumGet insertionSort (sortByDepartureTime insertionSort
      [⟨"T1".toList, "Boston".toList, "12:00".toList, "01:00".toList, 5⟩]) :=
    Reachable.sort _ (Reachable.add 0 4
      ⟨"T1 Boston\n12:00\n01:00\n5\n".toList, false, false⟩ ⟨"\n".toList, false, false⟩ [] _
      Reachable.empty (by decide))
  ⟨insertionSort_contract, hr,
    reachable_times_valid integerNumGet insertionSort insertionSort_contract _ hr⟩

/-- C3: when the train number, the destination line, a valid departure time, a valid
travel time and a positive price are entered, `inputTickets` returns (within four
steps, and with any larger bound) and the vector is the old vector with that ticket
appended at the end: one record more, every old record at its old index.  Whatever is
entered, a call that returns has appended exactly one record to the old vector. -/
theorem inputTickets_appends_candidate (numGet : NumGet) (junk : ℚ) (fuel : Nat)
    (tickets : List TrainTicket)
    (ws0 tn : List Char) (c1 : Char) (dest ws1 dep : List Char) (w2 : Char)
    (ws2 trav : List Char) (w3 : Char) (rest rest1 : List Char) (p : ℚ)
    (hws0 : ∀ c ∈ ws0, isSpace c = true) (htn : tn ≠ [])
    (htn1 : ∀ c ∈ tn, isSpace c = false) (hc1 : isSpace c1 = true)
    (hdest : ∀ c ∈ dest, c ≠ '\n') (hws1 : ∀ c ∈ ws1, isSpace c = true)
    (hdep : isValidTimeFormat dep = true) (hdep1 : ∀ c ∈ dep, isSpace c = false)
    (hw2 : isSpace w2 = true) (hws2 : ∀ c ∈ ws2, isSpace c = true)
    (htrav : isValidTimeFormat trav = true) (htrav1 : ∀ c ∈ trav, isSpace c = false)
    (hw3 : isSpace w3 = true) (hne : (w3 :: rest).dropWhile isSpace ≠ [])
    (hn : numGet ((w3 :: rest).dropWhile isSpace) = (some p, rest1)) (hp : 0 < p) :
    inputTickets numGet junk (fuel + 4)
        ⟨ws0 ++ (tn ++ c1 :: (dest ++ '\n' :: (ws1 ++ (dep ++ w2 ::
          (ws2 ++ (trav ++ w3 :: rest)))))), false, false⟩ tickets =
      some (⟨rest1, rest1.isEmpty, false⟩, tickets ++ [⟨tn, dest, dep, trav, p⟩]) ∧
    (tickets ++ [(⟨tn, dest, dep, trav, p⟩ : TrainTicket)]).length = tickets.length + 1 ∧
    (∀ i : Nat, i < tickets.length →
      (tickets ++ [(⟨tn, dest, dep, trav, p⟩ : TrainTicket)])[i]? = tickets[i]?) ∧
    (∀ (junk1 : ℚ) (fuel1 : Nat) (cin cin1 : IStream) (tickets1 : List TrainTicket),
      inputTickets numGet junk1 fuel1 cin tickets = some (cin1, tickets1) →
      ∃ t : TrainTicket, tickets1 = tickets ++ [t] ∧
        tickets1.length = tickets.length + 1 ∧
        ∀ i : Nat, i < tickets.length → tickets1[i]? = tickets[i]?) := by
  refine ⟨?_, by simp, fun i hi => List.getElem?_append_left hi, ?_⟩
  · exact inputTickets_of_run numGet junk fuel 4 _ tickets _
      (inputRun_accepts numGet junk tickets ws0 tn c1 dest ws1 dep w2 ws2 trav w3 rest rest1 p
        hws0 htn htn1 hc1 hdest hws1 hdep hdep1 hw2 hws2 htrav htrav1 hw3 hne hn hp) rfl
  · intro junk1 fuel1 cin cin1 tickets1 h1
    obtain ⟨t, ht, _⟩ := inputTickets_appends numGet junk1 fuel1 cin cin1 tickets tickets1 h1
    refine ⟨t, ht, by rw [ht]; simp, fun i hi => ?_⟩
    rw [ht]
    exact List.getElem?_append_left hi

/-- Witness of C3: a ticket to Boston is added to a vector that holds one ticket. -/
theorem inputTickets_appends_candidate_witness :
    inputTickets integerNumGet 0 (0 + 4)
        ⟨[] ++ ("T2".toList ++ ' ' :: ("Boston".toList ++ '\n' :: ([] ++ ("12:00".toList ++
          '\n' :: ([] ++ ("01:00".toList ++ '\n' :: "5\n".toList)))))), false, false⟩
        [⟨"T1".toList, "NYC".toList, "08:00".toList, "02:00".toList, 30⟩] =
      some (⟨"\n".toList, "\n".toList.isEmpty, false⟩,
        [⟨"T1".toList, "NYC".toList, "08:00".toList, "02:00".toList, 30⟩] ++
          [⟨"T2".toList, "Boston".toList, "12:00".toList, "01:00".toList, 5⟩]) :=
  (inputTickets_appends_candidate integerNumGet 0 0
    [⟨"T1".toList, "NYC".toList, "08:00".toList, "02:00".toList, 30⟩]
    [] "T2".toList ' ' "Boston".toList [] "12:00".toList '\n' [] "01:00".toList '\n'
    "5\n".toList "\n".toList 5
    (by decide) (by decide) (by decide) (by decide) (by decide) (by decide) (by decide)
    (by decide) (by decide) (by decide) (by decide) (by decide) (by decide) (by decide)
    (by decide) (by norm_num)).1

/-- C4: an entry that is rejected (a departure or travel time that `isValidTimeFormat`
does not accept, or a price that is not read as a number or is `<= 0`) inserts
nothing: the step leaves the vector as it is and stays at the same prompt, the vector
is unchanged as long as the call has not reached `push_back`, and the one ticket that
a returning call appends has valid times and a positive price. -/
theorem inputTickets_rejected_entry (numGet : NumGet) (s : InputState)
    (hr : rejectsNext numGet s = true) :
    (inputStep numGet s).tickets = s.tickets ∧ (inputStep numGet s).loc = s.loc ∧
    (∀ (junk : ℚ) (fuel : Nat) (cin : IStream) (tickets : List TrainTicket),
      (inputRun numGet fuel (inputStart junk cin tickets)).loc ≠ Loc.done →
      (inputRun numGet fuel (inputStart junk cin tickets)).tickets = tickets) ∧
    (∀ (junk : ℚ) (fuel : Nat) (cin cin1 : IStream) (tickets tickets1 : List TrainTicket),
      inputTickets numGet junk fuel cin tickets = some (cin1, tickets1) →
      ∃ t : TrainTicket, tickets1 = tickets ++ [t] ∧
        isValidTimeFormat t.departureTime = true ∧
        isValidTimeFormat t.travelTime = true ∧ 0 < t.price) := by
  refine ⟨?_, ?_, ?_, ?_⟩
  · obtain ⟨cin, ticket, value, tickets, loc⟩ := s
    cases loc with
    | start => rfl
    | departure => rfl
    | travel => rfl
    | price =>
      simp only [inputStep, getPositiveNumberPass_rejects numGet cin value hr]
      rfl
    | done => rfl
  · obtain ⟨cin, ticket, value, tickets, loc⟩ := s
    cases loc with
    | start => exact absurd hr (by simp [rejectsNext])
    | departure =>
      simp only [rejectsNext, Bool.not_eq_true'] at hr
      simp [inputStep, hr]
    | travel =>
      simp only [rejectsNext, Bool.not_eq_true'] at hr
      simp [inputStep, hr]
    | price =>
      simp only [inputStep, getPositiveNumberPass_rejects numGet cin value hr]
      rfl
    | done => rfl
  · intro junk fuel cin tickets hl
    exact inputInv_tickets tickets _
      (inputRun_inv numGet tickets fuel _ (inputStart_inv junk cin tickets)) hl
  · intro junk fuel cin cin1 tickets tickets1 h
    obtain ⟨t, ht, _, hd, htr, hp⟩ :=
      inputTickets_appends numGet junk fuel cin cin1 tickets tickets1 h
    exact ⟨t, ht, hd, htr, hp⟩

/-- Witness of C4: the price -5 is entered at the price prompt. -/
theorem inputTickets_rejected_entry_witness :
    rejectsNext integerNumGet
      ⟨⟨"-5\n".toList, false, false⟩,
        ⟨"T1".toList, "Boston".toList, "12:00".toList, "01:00".toList, 0⟩, 0,
        [⟨"T0".toList, "NYC".toList, "08:00".toList, "02:00".toList, 30⟩], Loc.price⟩ = true ∧
    (inputStep integerNumGet
      ⟨⟨"-5\n".toList, false, false⟩,
        ⟨"T1".toList, "Boston".toList, "12:00".toList, "01:00".toList, 0⟩, 0,
        [⟨"T0".toList, "NYC".toList, "08:00".toList, "02:00".toList, 30⟩], Loc.price⟩).tickets =
      [⟨"T0".toList, "NYC".toList, "08:00".toList, "02:00".toList, 30⟩] :=
  ⟨by decide, (inputTickets_rejected_entry integerNumGet _ (by decide)).1⟩

/-- C5, as stated, fails: when the line that follows the train number is empty,
`inputTickets` appends a ticket whose destination is the empty string. -/
theorem inputTickets_empty_destination :
    inputTickets integerNumGet 0 4 ⟨"T1\n\n12:00\n01:00\n5\n".toList, false, false⟩ [] =
      some (⟨"\n".toList, false, false⟩,
        [⟨"T1".toList, [], "12:00".toList, "01:00".toList, 5⟩]) ∧
    (⟨"T1".toList, [], "12:00".toList, "01:00".toList, 5⟩ : TrainTicket).destination = [] := by
  decide

/-- C5, amended: `inputTickets` never appends a ticket whose train number is empty; the
ticket that a returning call appends to the vector has a non-empty train number. -/
theorem inputTickets_trainNumber_nonempty (numGet : NumGet) (junk : ℚ) (fuel : Nat)
    (cin cin1 : IStream) (tickets tickets1 : List TrainTicket)
    (h : inputTickets numGet junk fuel cin tickets = some (cin1, tickets1)) :
    ∃ t : TrainTicket, tickets1 = tickets ++ [t] ∧ t.trainNumber ≠ [] := by
  obtain ⟨t, ht, hn, _⟩ := inputTickets_appends numGet junk fuel cin cin1 tickets tickets1 h
  exact ⟨t, ht, hn⟩

/-- Witness of amended C5. -/
theorem inputTickets_trainNumber_nonempty_witness :
    ∃ t : TrainTicket,
      [(⟨"T1".toList, [], "12:00".toList, "01:00".toList, 5⟩ : TrainTicket)] = [] ++ [t] ∧
      t.trainNumber ≠ [] :=
  inputTickets_trainNumber_nonempty integerNumGet 0 4
    ⟨"T1\n\n12:00\n01:00\n5\n".toList, false, false⟩ ⟨"\n".toList, false, false⟩ []
    [⟨"T1".toList, [], "12:00".toList, "01:00".toList, 5⟩] (by decide)

/-- C6: a pass of the loop of `getPositiveNumber` accepts the entry exactly when the
stream is good, a character other than white space is waiting, the conversion
delivers a number `x` and `0 < x`; an accepted entry makes `getPositiveNumber` return
that number; the number `getPositiveNumber` returns is always `> 0`, and so is the
price of the ticket that `inputTickets` stores. -/
theorem getPositiveNumber_accepts_iff (numGet : NumGet) (cin : IStream) (value : ℚ) :
    ((getPositiveNumberPass numGet cin value).2.2 = true ↔
      ∃ x : ℚ, cin.good = true ∧ cin.buf.dropWhile isSpace ≠ [] ∧
        (numGet (cin.buf.dropWhile isSpace)).1 = some x ∧ 0 < x) ∧
    (∀ (fuel : Nat) (x : ℚ), cin.good = true → cin.buf.dropWhile isSpace ≠ [] →
      (numGet (cin.buf.dropWhile isSpace)).1 = some x → 0 < x →
      ∃ cin1, getPositiveNumber numGet (fuel + 1) cin value = some (x, cin1)) ∧
    (∀ (fuel : Nat) (v : ℚ) (cin1 : IStream),
      getPositiveNumber numGet fuel cin value = some (v, cin1) → 0 < v) ∧
    (∀ (junk : ℚ) (fuel : Nat) (cin1 : IStream) (tickets tickets1 : List TrainTicket),
      inputTickets numGet junk fuel cin tickets = some (cin1, tickets1) →
      ∃ t : TrainTicket, tickets1 = tickets ++ [t] ∧ 0 < t.price) := by
  have hiff : (getPositiveNumberPass numGet cin value).2.2 = true ↔
      ∃ x : ℚ, cin.good = true ∧ cin.buf.dropWhile isSpace ≠ [] ∧
        (numGet (cin.buf.dropWhile isSpace)).1 = some x ∧ 0 < x := by
    rw [getPositiveNumberPass_accepts]
    constructor
    · intro h
      have := (extractDouble_ok_iff numGet cin value _).mp ⟨h.1, rfl⟩
      exact ⟨_, this.1, this.2.1, this.2.2, h.2⟩
    · rintro ⟨x, hg, hne, hn, hx⟩
      have := (extractDouble_ok_iff numGet cin value x).mpr ⟨hg, hne, hn⟩
      exact ⟨this.1, by rw [this.2]; exact hx⟩
  refine ⟨hiff, ?_, ?_, ?_⟩
  · intro fuel x hg hne hn hx
    have hacc := hiff.mpr ⟨x, hg, hne, hn, hx⟩
    have hv := (extractDouble_ok_iff numGet cin value x).mpr ⟨hg, hne, hn⟩
    refine ⟨(getPositiveNumberPass numGet cin value).1, ?_⟩
    simp only [getPositiveNumber, hacc, if_true]
    rw [(getPositiveNumberPass_value numGet cin value).1, hv.2]
  · intro fuel v cin1 h
    exact getPositiveNumber_pos numGet fuel cin value v cin1 h
  · intro junk fuel cin1 tickets tickets1 h
    obtain ⟨t, ht, _, _, _, hp⟩ :=
      inputTickets_appends numGet junk fuel cin cin1 tickets tickets1 h
    exact ⟨t, ht, hp⟩

/-- Witness of C6: the entries 5, -5, 0 and abc at the price prompt. -/
theorem getPositiveNumber_accepts_iff_witness :
    (getPositiveNumberPass integerNumGet ⟨"5\n".toList, false, false⟩ 0).2.2 = true ∧
    (getPositiveNumberPass integerNumGet ⟨"-5\n".toList, false, false⟩ 0).2.2 = false ∧
    (getPositiveNumberPass integerNumGet ⟨"0\n".toList, false, false⟩ 0).2.2 = false ∧
    (getPositiveNumberPass integerNumGet ⟨"abc\n".toList, false, false⟩ 0).2.2 = false ∧
    (∃ cin1, getPositiveNumber integerNumGet (0 + 1) ⟨"5\n".toList, false, false⟩ 0 =
      some (5, cin1)) ∧
    getPositiveNumber integerNumGet 4 ⟨"abc\n-5\n0\n7\n".toList, false, false⟩ 0 =
      some (7, ⟨"\n".toList, false, false⟩) :=
  ⟨by decide, by decide, by decide, by decide,
    (getPositiveNumber_accepts_iff integerNumGet ⟨"5\n".toList, false, false⟩ 0).2.1 0 5
      (by decide) (by decide) (by decide) (by norm_num),
    by decide⟩


/-! ## Sorting by departure time -/

/-- C7: after `sortByDepartureTime` the departure times are in descending lexicographic
order, each one `>=` the next, and the departure times 08:00, 23:15, 08:00 come out
as 23:15, 08:00, 08:00. -/
theorem sortByDepartureTime_descending (stdSort : StdSort) (h : SortContract stdSort)
    (tickets : List TrainTicket) :
    (∀ (i : Nat) (hi : i + 1 < (sortByDepartureTime stdSort tickets).length),
      strGe ((sortByDepartureTime stdSort tickets)[i]).departureTime
        ((sortByDepartureTime stdSort tickets)[i + 1]).departureTime = true) ∧
    (∀ a b c : TrainTicket, a.departureTime = "08:00".toList →
      b.departureTime = "23:15".toList → c.departureTime = "08:00".toList →
      (sortByDepartureTime stdSort [a, b, c]).map TrainTicket.departureTime =
        ["23:15".toList, "08:00".toList, "08:00".toList]) := by
  constructor
  · intro i hi
    have hp := sortByDepartureTime_pairwise stdSort h tickets
    exact List.pairwise_iff_getElem.mp hp i (i + 1) (by omega) hi (by omega)
  · intro a b c ha hb hc
    apply departureTimes_unique
    · have hp := (sortByDepartureTime_perm_aux stdSort h [a, b, c]).map
        TrainTicket.departureTime
      refine hp.trans ?_
      simp only [List.map, ha, hb, hc]
      exact List.Perm.swap _ _ _
    · exact departureTimes_sorted stdSort h [a, b, c]
    · decide

/-- Witness of C7 with insertion sort as the sorting routine. -/
theorem sortByDepartureTime_descending_witness :
    SortContract insertionSort ∧
    (sortByDepartureTime insertionSort
        [⟨"T1".toList, "Boston".toList, "08:00".toList, "02:10".toList, 50⟩,
         ⟨"T2".toList, "NYC".toList, "23:15".toList, "01:00".toList, 30⟩,
         ⟨"T3".toList, "Boston".toList, "08:00".toList, "03:00".toList, 10⟩]).map
      TrainTicket.departureTime = ["23:15".toList, "08:00".toList, "08:00".toList] :=
  ⟨insertionSort_contract,
    (sortByDepartureTime_descending insertionSort insertionSort_contract []).2
      _ _ _ rfl rfl rfl⟩

/-- C8: the vector after `sortByDepartureTime` is a permutation of the vector before it:
same length, and every record occurs as often as before. -/
theorem sortByDepartureTime_permutation (stdSort : StdSort) (h : SortContract stdSort)
    (tickets : List TrainTicket) :
    (sortByDepartureTime stdSort tickets).Perm tickets ∧
    (sortByDepartureTime stdSort tickets).length = tickets.length ∧
    (∀ t : TrainTicket, (sortByDepartureTime stdSort tickets).count t = tickets.count t) ∧
    (∀ t : TrainTicket, t ∈ sortByDepartureTime stdSort tickets ↔ t ∈ tickets) :=
  have hp := sortByDepartureTime_perm_aux stdSort h tickets
  ⟨hp, hp.length_eq, fun t => hp.count_eq t, fun _ => hp.mem_iff⟩

/-- Witness of C8 with insertion sort as the sorting routine. -/
theorem sortByDepartureTime_permutation_witness :
    SortContract insertionSort ∧
    (sortByDepartureTime insertionSort
        [⟨"T1".toList, "Boston".toList, "08:00".toList, "02:10".toList, 50⟩,
         ⟨"T2".toList, "NYC".toList, "23:15".toList, "01:00".toList, 30⟩]).Perm
      [⟨"T1".toList, "Boston".toList, "08:00".toList, "02:10".toList, 50⟩,
       ⟨"T2".toList, "NYC".toList, "23:15".toList, "01:00".toList, 30⟩] :=
  ⟨insertionSort_contract,
    (sortByDepartureTime_permutation insertionSort insertionSort_contract _).1⟩

/-- C9 (the order of the strings is not the order of the times): the strings 1a:30 and
12:00 are both accepted by `isValidTimeFormat`; as strings 1a:30 is the greater one,
but the validator reads it as 1 hour 30 minutes, which is earlier than 12:00. -/
theorem strGt_not_chronological :
    isValidTimeFormat "1a:30".toList = true ∧ isValidTimeFormat "12:00".toList = true ∧
    strGt "1a:30".toList "12:00".toList = true ∧
    minutesOfDay "1a:30".toList = some 90 ∧ minutesOfDay "12:00".toList = some 720 ∧
    TrainTicket.lt ⟨"T1".toList, "Boston".toList, "1a:30".toList, "01:00".toList, 5⟩
      ⟨"T2".toList, "Boston".toList, "12:00".toList, "01:00".toList, 5⟩ = true := by
  decide

set_option maxRecDepth 100000 in
/-- C10, as stated, fails: on seventeen tickets that all leave at 08:00 the sorting
routine of the GNU C++ library leaves the records in one order after the first call of
`sortByDepartureTime` and in another order after the second call. -/
theorem sortByDepartureTime_twice_counterexample :
    (sortByDepartureTime gnuSort seventeenTickets).map TrainTicket.trainNumber =
      ["T09".toList, "T17".toList, "T16".toList, "T15".toList, "T14".toList, "T13".toList,
       "T12".toList, "T11".toList, "T10".toList, "T01".toList, "T08".toList, "T07".toList,
       "T06".toList, "T05".toList, "T04".toList, "T03".toList, "T02".toList] ∧
    (sortByDepartureTime gnuSort (sortByDepartureTime gnuSort seventeenTickets)).map
        TrainTicket.trainNumber =
      ["T10".toList, "T02".toList, "T03".toList, "T04".toList, "T05".toList, "T06".toList,
       "T07".toList, "T08".toList, "T01".toList, "T09".toList, "T11".toList, "T12".toList,
       "T13".toList, "T14".toList, "T15".toList, "T16".toList, "T17".toList] ∧
    sortByDepartureTime gnuSort (sortByDepartureTime gnuSort seventeenTickets) ≠
      sortByDepartureTime gnuSort seventeenTickets := by
  decide

/-- C10, amended: sorting twice gives the same sequence of departure times as sorting
once, and the same order of records when no two records share a departure time. -/
theorem sortByDepartureTime_twice (stdSort : StdSort) (h : SortContract stdSort)
    (tickets : List TrainTicket) :
    (sortByDepartureTime stdSort (sortByDepartureTime stdSort tickets)).map
        TrainTicket.departureTime =
      (sortByDepartureTime stdSort tickets).map TrainTicket.departureTime ∧
    ((tickets.map TrainTicket.departureTime).Nodup →
      sortByDepartureTime stdSort (sortByDepartureTime stdSort tickets) =
        sortByDepartureTime stdSort tickets) := by
  have hp1 := sortByDepartureTime_perm_aux stdSort h tickets
  have hp2 := sortByDepartureTime_perm_aux stdSort h (sortByDepartureTime stdSort tickets)
  have hs1 := sortByDepartureTime_pairwise stdSort h tickets
  have hs2 := sortByDepartureTime_pairwise stdSort h (sortByDepartureTime stdSort tickets)
  constructor
  · exact departureTimes_unique _ _ (hp2.map _) (List.pairwise_map.mpr hs2)
      (List.pairwise_map.mpr hs1)
  · intro hnd
    have hn1 : ((sortByDepartureTime stdSort tickets).map TrainTicket.departureTime).Nodup :=
      ((hp1.map TrainTicket.departureTime).nodup_iff).mpr hnd
    have hn2 : ((sortByDepartureTime stdSort (sortByDepartureTime stdSort tickets)).map
        TrainTicket.departureTime).Nodup :=
      ((hp2.map TrainTicket.departureTime).nodup_iff).mpr hn1
    have hd1 := List.pairwise_map.mp hn1
    have hd2 := List.pairwise_map.mp hn2
    haveI : IsAntisymm TrainTicket (fun a b => strGe a.departureTime b.departureTime = true ∧
        a.departureTime ≠ b.departureTime) :=
      ⟨fun a b hab hba => absurd (strGe_antisymm _ _ hab.1 hba.1) hab.2⟩
    exact List.eq_of_perm_of_sorted hp2 (hs2.and hd2) (hs1.and hd1)

/-- Witness of amended C10 with insertion sort as the sorting routine. -/
theorem sortByDepartureTime_twice_witness :
    SortContract insertionSort ∧
    (sortByDepartureTime insertionSort (sortByDepartureTime insertionSort
        [⟨"T1".toList, "Boston".toList, "08:00".toList, "02:10".toList, 50⟩,
         ⟨"T2".toList, "NYC".toList, "08:00".toList, "01:00".toList, 30⟩])).map
        TrainTicket.departureTime =
      (sortByDepartureTime insertionSort
        [⟨"T1".toList, "Boston".toList, "08:00".toList, "02:10".toList, 50⟩,
         ⟨"T2".toList, "NYC".toList, "08:00".toList, "01:00".toList, 30⟩]).map
        TrainTicket.departureTime :=
  ⟨insertionSort_contract,
    (sortByDepartureTime_twice insertionSort insertionSort_contract _).1⟩


/-! ## The cheapest ticket -/

theorem minElement_concat (comp : TrainTicket → TrainTicket → Bool) (first : TrainTicket)
    (rest : List TrainTicket) (x : TrainTicket) :
    minElement comp first (rest ++ [x]) =
      if comp x (minElement comp first rest) then x else minElement comp first rest := by
  simp [minElement, List.foldl_append]

/-- The element that `std::min_element` delivers for the comparison of prices splits
the range: the elements before it cost more, the elements after it cost no less. -/
theorem minElement_split (first : TrainTicket) (rest : List TrainTicket) :
    ∃ pre post : List TrainTicket,
      first :: rest =
        pre ++ minElement (fun a b => decide (a.price < b.price)) first rest :: post ∧
      (∀ u ∈ pre, (minElement (fun a b => decide (a.price < b.price)) first rest).price
        < u.price) ∧
      (∀ u ∈ post, (minElement (fun a b => decide (a.price < b.price)) first rest).price
        ≤ u.price) := by
  induction rest using List.reverseRecOn with
  | nil => exact ⟨[], [], rfl, by simp, by simp⟩
  | append_singleton rest x ih =>
    obtain ⟨pre, post, he, hpre, hpost⟩ := ih
    rw [minElement_concat]
    by_cases hx : x.price < (minElement (fun a b => decide (a.price < b.price)) first rest).price
    · simp only [hx, decide_True, if_true]
      refine ⟨first :: rest, [], by simp, ?_, by simp⟩
      intro u hu
      rw [he] at hu
      rcases List.mem_append.mp hu with h1 | h1
      · exact lt_trans hx (hpre u h1)
      · rcases List.mem_cons.mp h1 with h2 | h2
        · rw [h2]; exact hx
        · exact lt_of_lt_of_le hx (hpost u h2)
    · simp only [hx, decide_False, Bool.false_eq_true, if_false]
      refine ⟨pre, post ++ [x], ?_, hpre, ?_⟩
      · rw [← List.cons_append, he]
        simp
      · intro u hu
        rcases List.mem_append.mp hu with h1 | h1
        · exact hpost u h1
        · rw [List.mem_singleton.mp h1]
          exact not_lt.mp hx

/-- The outcome of `findCheapestToDestination` on a vector that is not empty, in terms
of the destination that is read. -/
theorem findCheapestToDestination_outcome (cin : IStream) (tickets : List TrainTicket)
    (hne : tickets ≠ []) :
    (findCheapestToDestination cin tickets).2.2 =
      match tickets.filter
          (fun t => decide (t.destination = (getline (ignore1 cin) []).2)) with
      | [] => CheapestOutcome.notFound (getline (ignore1 cin) []).2
      | first :: rest => CheapestOutcome.cheapest (getline (ignore1 cin) []).2
          (minElement (fun a b => decide (a.price < b.price)) first rest) := by
  have he : tickets.isEmpty = false := by
    cases tickets with
    | nil => exact absurd rfl hne
    | cons t ts => rfl
  unfold findCheapestToDestination
  simp only [he, Bool.false_eq_true, if_false]
  split <;> rfl

/-- The ticket that `findCheapestToDestination` selects splits the vector: it goes to
the destination, the tickets to the destination before it cost more, those after it
cost no less. -/
theorem findCheapestToDestination_split (cin : IStream) (tickets : List TrainTicket)
    (d : CppString) (t : TrainTicket)
    (h : (findCheapestToDestination cin tickets).2.2 = CheapestOutcome.cheapest d t) :
    d = (getline (ignore1 cin) []).2 ∧
    ∃ pre post : List TrainTicket, tickets = pre ++ t :: post ∧ t.destination = d ∧
      (∀ u ∈ pre, u.destination = d → t.price < u.price) ∧
      (∀ u ∈ post, u.destination = d → t.price ≤ u.price) := by
  have hne : tickets ≠ [] := by
    intro he
    rw [he] at h
    simp [findCheapestToDestination] at h
  rw [findCheapestToDestination_outcome cin tickets hne] at h
  split at h
  · exact absurd h (by simp)
  · rename_i first rest hf
    injection h with hd ht
    obtain ⟨pre, post, he, hpre, hpost⟩ := minElement_split first rest
    rw [ht] at he hpre hpost
    rw [he] at hf
    obtain ⟨l1, l2, hl, h1, h2⟩ := List.filter_eq_append_iff.mp hf
    obtain ⟨a, b, hl2, ha, hpt, hb⟩ := List.filter_eq_cons_iff.mp h2
    refine ⟨hd.symm, l1 ++ a, b, by rw [hl, hl2]; simp, ?_, ?_, ?_⟩
    · rw [← hd]
      simpa using hpt
    · intro u hu hud
      rcases List.mem_append.mp hu with hu1 | hu1
      · apply hpre u
        rw [← h1]
        exact List.mem_filter.mpr ⟨hu1, by rw [hd]; simpa using hud⟩
      · exact absurd (by rw [hd]; simpa using hud) (ha u hu1)
    · intro u hu hud
      apply hpost u
      rw [← hb]
      exact List.mem_filter.mpr ⟨hu, by rw [hd]; simpa using hud⟩

/-- The outcome "not found" of `findCheapestToDestination` on a vector that is not
empty: no ticket goes to the destination that is read. -/
theorem findCheapestToDestination_notFound (cin : IStream) (tickets : List TrainTicket)
    (hne : tickets ≠ []) (d : CppString) (hd : (getline (ignore1 cin) []).2 = d) :
    (findCheapestToDestination cin tickets).2.2 = CheapestOutcome.notFound d ↔
      ∀ t ∈ tickets, t.destination ≠ d := by
  rw [findCheapestToDestination_outcome cin tickets hne, hd]
  split
  · rename_i hf
    simp only [true_iff]
    intro t ht htd
    have : t ∈ tickets.filter (fun t => decide (t.destination = d)) :=
      List.mem_filter.mpr ⟨ht, by simpa using htd⟩
    rw [hf] at this
    simp at this
  · rename_i first rest hf
    simp only [reduceCtorEq, false_iff, not_forall]
    have hm : first ∈ tickets.filter (fun t => decide (t.destination = d)) := by
      rw [hf]
      exact List.mem_cons_self _ _
    have := List.mem_filter.mp hm
    exact ⟨first, this.1, by simpa using this.2⟩

/-- C11: when at least one ticket has the destination `d` that is read,
`findCheapestToDestination` selects a ticket of the vector whose destination is `d`
and whose price is `<=` the price of every ticket with destination `d`; on tickets to
Boston for 50, to Boston for 30 and to NYC for 10 it selects the one for 30. -/
theorem findCheapestToDestination_cheapest (cin : IStream) (tickets : List TrainTicket)
    (d : CppString) (hd : (getline (ignore1 cin) []).2 = d)
    (hex : ∃ u ∈ tickets, u.destination = d) :
    (∃ t : TrainTicket,
      (findCheapestToDestination cin tickets).2.2 = CheapestOutcome.cheapest d t ∧
      t ∈ tickets ∧ t.destination = d ∧
      ∀ u ∈ tickets, u.destination = d → t.price ≤ u.price) ∧
    (∀ a b c : TrainTicket, d = "Boston".toList →
      a.destination = "Boston".toList → a.price = 50 →
      b.destination = "Boston".toList → b.price = 30 →
      c.destination = "NYC".toList → c.price = 10 →
      (findCheapestToDestination cin [a, b, c]).2.2 =
        CheapestOutcome.cheapest "Boston".toList b) := by
  constructor
  · obtain ⟨u, hu, hud⟩ := hex
    have hne : tickets ≠ [] := List.ne_nil_of_mem hu
    have hnf : (findCheapestToDestination cin tickets).2.2 ≠ CheapestOutcome.notFound d := by
      intro h
      exact (findCheapestToDestination_notFound cin tickets hne d hd).mp h u hu hud
    have ho := findCheapestToDestination_outcome cin tickets hne
    rw [hd] at ho
    split at ho
    · exact absurd ho hnf
    · rename_i first rest _
      obtain ⟨_, pre, post, he, htd, hpre, hpost⟩ :=
        findCheapestToDestination_split cin tickets d _ ho
      refine ⟨_, ho, by rw [he]; simp, htd, ?_⟩
      intro v hv hvd
      nth_rewrite 1 [he] at hv
      rcases List.mem_append.mp hv with h1 | h1
      · exact le_of_lt (hpre v h1 hvd)
      · rcases List.mem_cons.mp h1 with h2 | h2
        · rw [h2]
        · exact hpost v h2 hvd
  · intro a b c hB ha hap hb hbp hc hcp
    rw [findCheapestToDestination_outcome cin [a, b, c] (by simp), hd, hB]
    have hf : [a, b, c].filter (fun t => decide (t.destination = "Boston".toList)) =
        [a, b] := by
      simp [List.filter, ha, hb, hc]
    simp only [hf]
    simp [minElement, hap, hbp]
    norm_num

/-- Witness of C11: the destination Boston is entered after the menu choice. -/
theorem findCheapestToDestination_cheapest_witness :
    (findCheapestToDestination ⟨"\nBoston\n".toList, false, false⟩
      [⟨"T1".toList, "Boston".toList, "08:00".toList, "02:10".toList, 50⟩,
       ⟨"T2".toList, "Boston".toList, "09:00".toList, "02:10".toList, 30⟩,
       ⟨"T3".toList, "NYC".toList, "10:00".toList, "01:00".toList, 10⟩]).2.2 =
      CheapestOutcome.cheapest "Boston".toList
        ⟨"T2".toList, "Boston".toList, "09:00".toList, "02:10".toList, 30⟩ :=
  (findCheapestToDestination_cheapest ⟨"\nBoston\n".toList, false, false⟩
    [⟨"T1".toList, "Boston".toList, "08:00".toList, "02:10".toList, 50⟩,
     ⟨"T2".toList, "Boston".toList, "09:00".toList, "02:10".toList, 30⟩,
     ⟨"T3".toList, "NYC".toList, "10:00".toList, "01:00".toList, 10⟩]
    "Boston".toList (by decide)
    ⟨⟨"T1".toList, "Boston".toList, "08:00".toList, "02:10".toList, 50⟩,
      by decide, by decide⟩).2
    ⟨"T1".toList, "Boston".toList, "08:00".toList, "02:10".toList, 50⟩
    ⟨"T2".toList, "Boston".toList, "09:00".toList, "02:10".toList, 30⟩
    ⟨"T3".toList, "NYC".toList, "10:00".toList, "01:00".toList, 10⟩
    rfl rfl rfl rfl rfl rfl rfl

/-- C12, as stated, fails on the empty vector: no ticket goes to Chicago, yet
`findCheapestToDestination` does not give the outcome "not found"; it gives the
outcome "no data" and leaves the entered destination unread. -/
theorem findCheapestToDestination_empty_store :
    ¬ ((findCheapestToDestination ⟨"\nChicago\n".toList, false, false⟩ []).2.2 =
        CheapestOutcome.notFound "Chicago".toList ↔
      ∀ t ∈ ([] : List TrainTicket), t.destination ≠ "Chicago".toList) ∧
    findCheapestToDestination ⟨"\nChicago\n".toList, false, false⟩ [] =
      (⟨"\nChicago\n".toList, false, false⟩, [], CheapestOutcome.noData) := by
  decide

/-- C12, amended: on a vector that is not empty `findCheapestToDestination` gives the
outcome "not found" exactly when no ticket has a destination equal, character for
character, to the destination `d` that is read; on the empty vector it gives the
outcome "no data" and reads nothing. -/
theorem findCheapestToDestination_notFound_iff (cin : IStream) (tickets : List TrainTicket)
    (hne : tickets ≠ []) (d : CppString) (hd : (getline (ignore1 cin) []).2 = d) :
    ((findCheapestToDestination cin tickets).2.2 = CheapestOutcome.notFound d ↔
      ∀ t ∈ tickets, t.destination ≠ d) ∧
    findCheapestToDestination cin [] = (cin, [], CheapestOutcome.noData) :=
  ⟨findCheapestToDestination_notFound cin tickets hne d hd, rfl⟩

/-- Witness of amended C12: Chicago and boston are not found among tickets to Boston
and NYC. -/
theorem findCheapestToDestination_notFound_iff_witness :
    (findCheapestToDestination ⟨"\nChicago\n".toList, false, false⟩
      [⟨"T1".toList, "Boston".toList, "08:00".toList, "02:10".toList, 50⟩,
       ⟨"T3".toList, "NYC".toList, "10:00".toList, "01:00".toList, 10⟩]).2.2 =
      CheapestOutcome.notFound "Chicago".toList ∧
    (findCheapestToDestination ⟨"\nboston\n".toList, false, false⟩
      [⟨"T1".toList, "Boston".toList, "08:00".toList, "02:10".toList, 50⟩,
       ⟨"T3".toList, "NYC".toList, "10:00".toList, "01:00".toList, 10⟩]).2.2 =
      CheapestOutcome.notFound "boston".toList :=
  ⟨(findCheapestToDestination_notFound_iff ⟨"\nChicago\n".toList, false, false⟩
      [⟨"T1".toList, "Boston".toList, "08:00".toList, "02:10".toList, 50⟩,
       ⟨"T3".toList, "NYC".toList, "10:00".toList, "01:00".toList, 10⟩]
      (by decide) "Chicago".toList (by decide)).1.mpr (by decide),
    by decide⟩

/-! ## The average price -/

/-- C14: among the tickets to the destination `d` that tie for the lowest price,
`findCheapestToDestination` selects the one that comes first in the vector: every
ticket to `d` before the selected one costs more, every ticket to `d` after it costs
no less; and what is selected depends only on the vector and on the destination that
is read. -/
theorem findCheapestToDestination_first (cin : IStream) (tickets : List TrainTicket)
    (d : CppString) (t : TrainTicket)
    (h : (findCheapestToDestination cin tickets).2.2 = CheapestOutcome.cheapest d t) :
    (∃ pre post : List TrainTicket, tickets = pre ++ t :: post ∧ t.destination = d ∧
      (∀ u ∈ pre, u.destination = d → t.price < u.price) ∧
      (∀ u ∈ post, u.destination = d → t.price ≤ u.price)) ∧
    (∀ cin1 : IStream, (getline (ignore1 cin1) []).2 = d →
      (findCheapestToDestination cin1 tickets).2.2 = CheapestOutcome.cheapest d t) := by
  have hs := findCheapestToDestination_split cin tickets d t h
  refine ⟨hs.2, ?_⟩
  intro cin1 hd1
  have hne : tickets ≠ [] := by
    intro he
    rw [he] at h
    simp [findCheapestToDestination] at h
  rw [findCheapestToDestination_outcome cin tickets hne, ← hs.1] at h
  rw [findCheapestToDestination_outcome cin1 tickets hne, hd1]
  exact h

/-- Witness of C14: two tickets to Boston for 30; the first of them is selected. -/
theorem findCheapestToDestination_first_witness :
    ∃ pre post : List TrainTicket,
      [(⟨"T1".toList, "Boston".toList, "08:00".toList, "02:10".toList, 50⟩ : TrainTicket),
       ⟨"T2".toList, "Boston".toList, "09:00".toList, "02:10".toList, 30⟩,
       ⟨"T3".toList, "Boston".toList, "10:00".toList, "01:00".toList, 30⟩] =
        pre ++ ⟨"T2".toList, "Boston".toList, "09:00".toList, "02:10".toList, 30⟩ :: post ∧
      (⟨"T2".toList, "Boston".toList, "09:00".toList, "02:10".toList, 30⟩ :
        TrainTicket).destination = "Boston".toList ∧
      (∀ u ∈ pre, u.destination = "Boston".toList → (30 : ℚ) < u.price) ∧
      (∀ u ∈ post, u.destination = "Boston".toList → (30 : ℚ) ≤ u.price) :=
  (findCheapestToDestination_first ⟨"\nBoston\n".toList, false, false⟩
    [⟨"T1".toList, "Boston".toList, "08:00".toList, "02:10".toList, 50⟩,
     ⟨"T2".toList, "Boston".toList, "09:00".toList, "02:10".toList, 30⟩,
     ⟨"T3".toList, "Boston".toList, "10:00".toList, "01:00".toList, 30⟩]
    "Boston".toList ⟨"T2".toList, "Boston".toList, "09:00".toList, "02:10".toList, 30⟩
    (by decide)).1

/-! ## The time validator on strings of digits -/

theorem isDigit_cases (c : Char) (h : isDigit c = true) : c ∈ "0123456789".toList := by
  unfold isDigit at h
  simp only [Bool.and_eq_true, decide_eq_true_eq] at h
  obtain ⟨h1, h2⟩ := h
  have hc : c = Char.ofNat c.toNat := (Char.ofNat_toNat c).symm
  generalize c.toNat = n at h1 h2 hc
  subst hc
  interval_cases n <;> decide

/-- The conversion `stoi` of two digits gives the value of the numeral. -/
theorem stoi_two_digits (a b : Char) (ha : isDigit a = true) (hb : isDigit b = true) :
    stoi [a, b] = some ((10 * (a.toNat - 48) + (b.toNat - 48) : Nat) : Int) := by
  have h1 := isDigit_cases a ha
  have h2 := isDigit_cases b hb
  simp only [String.toList, List.mem_cons, List.mem_singleton, List.not_mem_nil,
    or_false] at h1 h2
  rcases h1 with rfl | rfl | rfl | rfl | rfl | rfl | rfl | rfl | rfl | rfl <;>
    rcases h2 with rfl | rfl | rfl | rfl | rfl | rfl | rfl | rfl | rfl | rfl <;> decide

/-- C15: on a string made of two digits, a colon and two digits `isValidTimeFormat`
returns true exactly when the first numeral is below 24 and the second below 60; a
string whose length is not 5, or whose character at index 2 is not a colon, is
rejected. -/
theorem isValidTimeFormat_digits (d1 d2 d3 d4 : Char) (h1 : isDigit d1 = true)
    (h2 : isDigit d2 = true) (h3 : isDigit d3 = true) (h4 : isDigit d4 = true) :
    (isValidTimeFormat [d1, d2, ':', d3, d4] = true ↔
      10 * (d1.toNat - 48) + (d2.toNat - 48) < 24 ∧
        10 * (d3.toNat - 48) + (d4.toNat - 48) < 60) ∧
    (∀ time : CppString, time.length ≠ 5 ∨ time.get? 2 ≠ some ':' →
      isValidTimeFormat time = false) := by
  constructor
  · have e1 : substr [d1, d2, ':', d3, d4] 0 2 = [d1, d2] := rfl
    have e2 : substr [d1, d2, ':', d3, d4] 3 2 = [d3, d4] := rfl
    unfold isValidTimeFormat
    rw [e1, e2, stoi_two_digits d1 d2 h1 h2, stoi_two_digits d3 d4 h3 h4]
    simp only [List.length_cons, List.length_nil, List.get?_cons_succ, List.get?_cons_zero,
      ne_eq, not_true_eq_false, if_false, Bool.and_eq_true, decide_eq_true_eq]
    omega
  · intro time h
    unfold isValidTimeFormat
    rcases h with h | h
    · rw [if_pos h]
    · by_cases hl : time.length = 5
      · rw [if_neg (not_not.mpr hl), if_pos h]
      · rw [if_pos hl]

/-- Witness of C15: the string 23:59. -/
theorem isValidTimeFormat_digits_witness :
    isValidTimeFormat ['2', '3', ':', '5', '9'] = true ↔
      10 * ('2'.toNat - 48) + ('3'.toNat - 48) < 24 ∧
        10 * ('5'.toNat - 48) + ('9'.toNat - 48) < 60 :=
  (isValidTimeFormat_digits '2' '3' '5' '9' (by decide) (by decide) (by decide)
    (by decide)).1

/-! ## Small vectors, the read-only operations and the menu loop -/

/-- C16: on a vector with zero or one record `sortByDepartureTime` changes nothing; the
call returns the vector it was given. -/
theorem sortByDepartureTime_small (stdSort : StdSort) (h : SortContract stdSort)
    (tickets : List TrainTicket) (hl : tickets.length ≤ 1) :
    sortByDepartureTime stdSort tickets = tickets := by
  have hp := sortByDepartureTime_perm_aux stdSort h tickets
  match tickets, hl, hp with
  | [], _, hp => exact List.Perm.eq_nil hp
  | [t], _, hp => exact List.Perm.eq_singleton hp
  | _ :: _ :: _, hl, _ => simp at hl

/-- Witness of C16 with insertion sort as the sorting routine. -/
theorem sortByDepartureTime_small_witness :
    SortContract insertionSort ∧
    sortByDepartureTime insertionSort
        [⟨"T1".toList, "Boston".toList, "08:00".toList, "02:10".toList, 50⟩] =
      [⟨"T1".toList, "Boston".toList, "08:00".toList, "02:10".toList, 50⟩] ∧
    sortByDepartureTime insertionSort [] = [] :=
  ⟨insertionSort_contract,
    sortByDepartureTime_small insertionSort insertionSort_contract _ (by decide),
    by decide⟩

theorem foldl_rows (tickets rows : List TrainTicket) :
    tickets.foldl (fun rows ticket => rows ++ [ticket]) rows = rows ++ tickets := by
  induction tickets generalizing rows with
  | nil => simp
  | cons t ts ih =>
    simp only [List.foldl_cons]
    rw [ih]
    simp

/-- C17: the operations that only read leave the vector as it is: `displayAllTickets`
shows the records of the vector in their order, and after the menu choices 2
(`displayAllTickets`), 3 (`calculateAveragePrice`) and 4 (`findCheapestToDestination`,
whatever destination is entered) the vector holds the same records in the same
order. -/
theorem readOnly_operations (numGet : NumGet) (stdSort : StdSort) (junk : ℚ) (fuel : Nat)
    (cin : IStream) (tickets : List TrainTicket) :
    (tickets ≠ [] → displayAllTickets tickets = some tickets) ∧
    (findCheapestToDestination cin tickets).2.1 = tickets ∧
    (∀ choice : Int, choice = 2 ∨ choice = 3 ∨ choice = 4 →
      ∃ cin1 : IStream,
        menuAction numGet stdSort junk fuel choice cin tickets = some (cin1, tickets)) := by
  have hf : (findCheapestToDestination cin tickets).2.1 = tickets := by
    unfold findCheapestToDestination
    split_ifs
    · rfl
    · simp only
      split <;> rfl
  refine ⟨?_, hf, ?_⟩
  · intro hne
    cases tickets with
    | nil => exact absurd rfl hne
    | cons t ts => simp [displayAllTickets, foldl_rows]
  · intro choice hc
    rcases hc with rfl | rfl | rfl
    · exact ⟨cin, by simp [menuAction]⟩
    · exact ⟨cin, by simp [menuAction]⟩
    · exact ⟨(findCheapestToDestination cin tickets).1, by simp [menuAction, hf]⟩

/-- Witness of C17: the cheapest ticket to Boston is asked for. -/
theorem readOnly_operations_witness :
    ∃ cin1 : IStream,
      menuAction integerNumGet insertionSort 0 4 4 ⟨"\nBoston\n".toList, false, false⟩
        [⟨"T1".toList, "Boston".toList, "08:00".toList, "02:10".toList, 50⟩,
         ⟨"T3".toList, "NYC".toList, "10:00".toList, "01:00".toList, 10⟩] =
      some (cin1,
        [⟨"T1".toList, "Boston".toList, "08:00".toList, "02:10".toList, 50⟩,
         ⟨"T3".toList, "NYC".toList, "10:00".toList, "01:00".toList, 10⟩]) :=
  (readOnly_operations integerNumGet insertionSort 0 4 ⟨"\nBoston\n".toList, false, false⟩
    [⟨"T1".toList, "Boston".toList, "08:00".toList, "02:10".toList, 50⟩,
     ⟨"T3".toList, "NYC".toList, "10:00".toList, "01:00".toList, 10⟩]).2.2 4
    (Or.inr (Or.inr rfl))

/-- C18: the condition of the menu loop assigns 6 to `choice` and is true whatever was
read, the choice 6 included; after every iteration whose operation returns the loop
goes on with the next one, and `main` never leaves the loop. -/
theorem mainLoop_never_exits (numGet : NumGet) (intGet : IntGet) (stdSort : StdSort)
    (junk : ℚ) (fuelInput : Nat) :
    (∀ choice : Int, loopCondition choice = (6, true)) ∧
    (∀ (fuel : Nat) (s : MainState) (after : IStream × List TrainTicket),
      menuAction numGet stdSort junk fuelInput (extractInt intGet s.cin s.choice).2
          (extractInt intGet s.cin s.choice).1 s.tickets = some after →
      mainLoop numGet intGet stdSort junk fuelInput (fuel + 1) s =
        mainLoop numGet intGet stdSort junk fuelInput fuel ⟨after.1, after.2, 6⟩) ∧
    (∀ (fuel : Nat) (s : MainState),
      mainLoop numGet intGet stdSort junk fuelInput fuel s = none) := by
  refine ⟨fun _ => rfl, ?_, ?_⟩
  · intro fuel s after h
    simp [mainLoop, h, loopCondition]
  · intro fuel
    induction fuel with
    | zero => intro s; rfl
    | succ n ih =>
      intro s
      cases h : menuAction numGet stdSort junk fuelInput (extractInt intGet s.cin s.choice).2
          (extractInt intGet s.cin s.choice).1 s.tickets with
      | none => simp [mainLoop, h]
      | some after => simp [mainLoop, h, loopCondition, ih]

/-- Witness of C18: the choice 6 is read and the loop goes on. -/
theorem mainLoop_never_exits_witness :
    mainLoop integerNumGet (fun buf => (false, 6, buf.drop 1)) insertionSort 0 4 (0 + 1)
        ⟨⟨"6\n".toList, false, false⟩, [], 0⟩ =
      mainLoop integerNumGet (fun buf => (false, 6, buf.drop 1)) insertionSort 0 4 0
        ⟨⟨"\n".toList, false, false⟩, [], 6⟩ :=
  (mainLoop_never_exits integerNumGet (fun buf => (false, 6, buf.drop 1)) insertionSort
    0 4).2.1 0 ⟨⟨"6\n".toList, false, false⟩, [], 0⟩ (⟨"\n".toList, false, false⟩, [])
    (by decide)

/-! ## The comparison of tickets -/

/-- C19: `TrainTicket::operator<`, for which `a < b` exactly when the departure time of
`a` is the greater string, is a strict weak ordering: irreflexive, asymmetric,
transitive, and with a transitive incomparability, which holds exactly between
tickets of equal departure time; this is what `std::sort` requires. -/
theorem lt_strict_weak_ordering :
    (∀ a b : TrainTicket, TrainTicket.lt a b = strGt a.departureTime b.departureTime) ∧
    (∀ a : TrainTicket, TrainTicket.lt a a = false) ∧
    (∀ a b : TrainTicket, TrainTicket.lt a b = true → TrainTicket.lt b a = false) ∧
    (∀ a b c : TrainTicket, TrainTicket.lt a b = true → TrainTicket.lt b c = true →
      TrainTicket.lt a c = true) ∧
    (∀ a b : TrainTicket, (TrainTicket.lt a b = false ∧ TrainTicket.lt b a = false) ↔
      a.departureTime = b.departureTime) ∧
    (∀ a b c : TrainTicket, TrainTicket.lt a b = false → TrainTicket.lt b a = false →
      TrainTicket.lt b c = false → TrainTicket.lt c b = false →
      TrainTicket.lt a c = false ∧ TrainTicket.lt c a = false) ∧
    StrictWeakOrder TrainTicket.lt := by
  refine ⟨fun _ _ => rfl, lt_strictWeakOrder.irrefl, swo_asymm lt_strictWeakOrder,
    lt_strictWeakOrder.trans, ?_, lt_strictWeakOrder.incomp_trans, lt_strictWeakOrder⟩
  intro a b
  constructor
  · intro h
    exact strGt_incomparable _ _ h.1 h.2
  · intro h
    unfold TrainTicket.lt
    rw [h]
    exact ⟨strGt_irrefl _, strGt_irrefl _⟩

/-- Witness of C19: a ticket that leaves at 23:15 comes before one that leaves at
08:00, and not the other way round. -/
theorem lt_strict_weak_ordering_witness :
    TrainTicket.lt ⟨"T2".toList, "NYC".toList, "08:00".toList, "01:00".toList, 30⟩
      ⟨"T1".toList, "Boston".toList, "23:15".toList, "02:10".toList, 50⟩ = false :=
  lt_strict_weak_ordering.2.2.1
    ⟨"T1".toList, "Boston".toList, "23:15".toList, "02:10".toList, 50⟩
    ⟨"T2".toList, "NYC".toList, "08:00".toList, "01:00".toList, 30⟩ (by decide)

/-! ## The time validator never fails -/

/-- C20: `isValidTimeFormat` returns a boolean for every string: with the failures of
its operations made explicit the call still returns, and returns the same value; for
a length other than 5 it returns false before the index or the substrings are
evaluated; for the length 5 the access `time[2]` and the two calls of `substr` are
within bounds; and a conversion that fails gives false. -/
theorem isValidTimeFormat_total (time : CppString) :
    isValidTimeFormatChecked time = some (isValidTimeFormat time) ∧
    (time.length ≠ 5 → isValidTimeFormat time = false) ∧
    (time.length = 5 → index time 2 = time.get? 2 ∧ (index time 2).isSome = true ∧
      substrChecked time 0 2 = some (substr time 0 2) ∧
      substrChecked time 3 2 = some (substr time 3 2)) ∧
    (stoi (substr time 0 2) = none ∨ stoi (substr time 3 2) = none →
      isValidTimeFormat time = false) := by
  have hidx : time.length = 5 → index time 2 = time.get? 2 ∧ (index time 2).isSome = true ∧
      substrChecked time 0 2 = some (substr time 0 2) ∧
      substrChecked time 3 2 = some (substr time 3 2) := by
    intro hl
    have h2 : 2 < time.length := by omega
    have hi : index time 2 = time.get? 2 := by simp [index, h2]
    refine ⟨hi, ?_, by simp [substrChecked], by simp [substrChecked, hl]⟩
    rw [hi, List.get?_eq_get h2]
    rfl
  refine ⟨?_, ?_, hidx, ?_⟩
  · unfold isValidTimeFormatChecked isValidTimeFormat
    by_cases hl : time.length = 5
    · obtain ⟨hi, _, hs0, hs3⟩ := hidx hl
      rw [if_neg (not_not.mpr hl), if_neg (not_not.mpr hl), hi, hs0, hs3]
      have h2 : 2 < time.length := by omega
      rw [List.get?_eq_get h2]
      simp only [Option.some_bind, ne_eq, Option.some.injEq]
      split_ifs with hc
      all_goals first
        | rfl
        | (cases stoi (substr time 0 2) with
          | none => rfl
          | some hours => cases stoi (substr time 3 2) <;> rfl)
    · rw [if_pos hl, if_pos hl]
  · intro hl
    unfold isValidTimeFormat
    rw [if_pos hl]
  · intro h
    unfold isValidTimeFormat
    split_ifs
    · rfl
    · rfl
    · rcases h with h | h
      · rw [h]
      · rw [h]
        cases stoi (substr time 0 2) <;> rfl

/-- Witness of C20: the minutes of the string 12:xx are not a number, the string 123 is
too short, and the empty string is rejected. -/
theorem isValidTimeFormat_total_witness :
    isValidTimeFormat "12:xx".toList = false ∧ isValidTimeFormat "123".toList = false ∧
    isValidTimeFormatChecked [] = some false :=
  ⟨(isValidTimeFormat_total "12:xx".toList).2.2.2 (Or.inr (by decide)),
    (isValidTimeFormat_total "123".toList).2.1 (by decide),
    by decide⟩
end TrainTickets
